import Mathlib

/-!
Verification development for the XBRL fact extractor of `stream-read-xbrl`
(`stream_read_xbrl.py`).  The extractor `_xbrl_to_rows` is shallowly embedded:
the parsed XML tree is modelled by `XmlNode`/`XmlDoc`, Python `Decimal` values
by exact mantissa/exponent pairs (`Dec`), dates by `PyDate`, and every Python
exception that the extractor can raise by `PyError`, with fallible code
returning `Except PyError`.  External libraries are modelled only as far as the
extractor exercises them; each such restriction is noted at the definition.
-/

/-! ## Python string primitives used by the extractor -/

/-- Whitespace for Python `str.strip` (ASCII subset; the extractor only meets
ASCII whitespace in practice). -/
def isPySpace (c : Char) : Bool :=
  c = ' ' || c = '\t' || c = '\n' || c = '\r' || c = '\x0b' || c = '\x0c'

def pyStripList (l : List Char) : List Char :=
  ((l.dropWhile isPySpace).reverse.dropWhile isPySpace).reverse

/-- Python `str.strip()`. -/
def pyStrip (s : String) : String :=
  ⟨pyStripList s.toList⟩

/-- Does `pat` occur as a contiguous sublist of the list?  Backs the Python
`in` operator on strings. -/
def subOccurs (pat : List Char) : List Char → Bool
  | [] => pat.isEmpty
  | c :: rest => pat.isPrefixOf (c :: rest) || subOccurs pat rest

/-- Python `pat in hay` for strings. -/
def pyContains (hay pat : String) : Bool :=
  subOccurs pat.toList hay.toList

/-- The part of `s` after the last occurrence of `sep`, or all of `s` when
`sep` does not occur: the third component of Python `s.rpartition(sep)` as the
extractor uses it. -/
def afterLastSep (sep : Char) (s : String) : String :=
  ⟨((s.toList.reverse).takeWhile (fun c => c ≠ sep)).reverse⟩

/-- Python `os.path.basename` for POSIX paths. -/
def pyBasename (s : String) : String :=
  afterLastSep '/' s

def isAsciiDigit (c : Char) : Bool :=
  '0' ≤ c && c ≤ '9'

def digitsToNat (l : List Char) : Nat :=
  l.foldl (fun n c => n * 10 + (c.toNat - 48)) 0

/-! ## Dates

`PyDate` models `datetime.date`; ordering is lexicographic on
(year, month, day) as in Python. -/

structure PyDate where
  year : Nat
  month : Nat
  day : Nat
deriving DecidableEq

def isLeapYear (y : Nat) : Bool :=
  (y % 4 = 0 && y % 100 ≠ 0) || y % 400 = 0

def daysInMonth (y m : Nat) : Nat :=
  if m = 2 then (if isLeapYear y then 29 else 28)
  else if m = 4 || m = 6 || m = 9 || m = 11 then 30
  else 31

def mkValidDate? (y m d : Nat) : Option PyDate :=
  if 1 ≤ y && y ≤ 9999 && 1 ≤ m && m ≤ 12 && 1 ≤ d && d ≤ daysInMonth y m then
    some ⟨y, m, d⟩
  else
    none

/-- `datetime.date.fromisoformat`: exactly `YYYY-MM-DD` with a valid calendar
date (the strict pre-3.11 grammar, which is the format the feed uses). -/
def fromisoformat? (s : String) : Option PyDate :=
  match s.toList with
  | [y1, y2, y3, y4, d1, m1, m2, d2, dd1, dd2] =>
      if [y1, y2, y3, y4, m1, m2, dd1, dd2].all isAsciiDigit && d1 = '-' && d2 = '-' then
        mkValidDate? (digitsToNat [y1, y2, y3, y4]) (digitsToNat [m1, m2]) (digitsToNat [dd1, dd2])
      else none
  | _ => none

/-- Model of `dateutil.parser.parse(text).date()` restricted to the formats
the extractor feeds it: ISO `YYYY-MM-DD` dates and the 8-digit `YYYYMMDD`
dates produced by the filename pattern.  Any other text is a parse error. -/
def parseDateutil? (s : String) : Option PyDate :=
  match fromisoformat? s with
  | some d => some d
  | none =>
      match s.toList with
      | [y1, y2, y3, y4, m1, m2, d1, d2] =>
          if [y1, y2, y3, y4, m1, m2, d1, d2].all isAsciiDigit then
            mkValidDate? (digitsToNat [y1, y2, y3, y4]) (digitsToNat [m1, m2]) (digitsToNat [d1, d2])
          else none
      | _ => none

def dateLtB (a b : PyDate) : Bool :=
  a.year < b.year ||
    (a.year = b.year && (a.month < b.month || (a.month = b.month && a.day < b.day)))

def dateLeB (a b : PyDate) : Bool :=
  dateLtB a b || a = b

/-- Lexicographic comparison of `(period_start, period_end)` pairs, matching
Python tuple comparison of `datetime.date` pairs. -/
def datePairLeB (a b : PyDate × PyDate) : Bool :=
  dateLtB a.1 b.1 || (a.1 = b.1 && dateLeB a.2 b.2)

/-! ## Exact decimals

`Dec` is the internal form of a Python `Decimal`: a signed coefficient and a
power-of-ten exponent, so the represented number is `mant * 10 ^ exp`.  All of
the arithmetic `_parse_decimal` performs (integer sign flip, multiplication by
`Decimal(10) ** Decimal(scale)` for an integral scale) is exact in Python and
is modelled exactly here. -/

structure Dec where
  mant : Int
  exp : Int
deriving DecidableEq

/-- Parse a decimal literal the way the `Decimal` constructor does:
optional sign, digits with an optional fractional part, and an optional
exponent part.  Returns the exact coefficient/exponent pair. -/
def parseDecLit? (s : String) : Option Dec :=
  let l := s.toList
  let (sign, l1) : Int × List Char :=
    match l with
    | '-' :: rest => (-1, rest)
    | '+' :: rest => (1, rest)
    | _ => (1, l)
  let (intPart, l2) := l1.span isAsciiDigit
  let (fracPart, l3) : List Char × List Char :=
    match l2 with
    | '.' :: rest => rest.span isAsciiDigit
    | _ => ([], l2)
  if intPart.isEmpty && fracPart.isEmpty then none
  else
    let (expVal?, l5) : Option Int × List Char :=
      match l3 with
      | 'e' :: rest | 'E' :: rest =>
          let (esign, r1) : Int × List Char :=
            match rest with
            | '-' :: r => (-1, r)
            | '+' :: r => (1, r)
            | _ => (1, rest)
          let (edigits, r2) := r1.span isAsciiDigit
          if edigits.isEmpty then (none, ['e'])
          else (some (esign * (digitsToNat edigits : Int)), r2)
      | _ => (some 0, l3)
    match expVal?, l5 with
    | some e, [] =>
        some ⟨sign * (digitsToNat (intPart ++ fracPart) : Int), e - (fracPart.length : Int)⟩
    | _, _ => none

/-- The integer value of an integral `Dec`, used for the `scale` attribute.
A non-integral scale would make Python compute an inexact power; the feed
only carries integer scales, so that path is modelled as `none`. -/
def Dec.asInt? (d : Dec) : Option Int :=
  if 0 ≤ d.exp then some (d.mant * 10 ^ d.exp.toNat)
  else if d.mant % ((10 : Int) ^ (-d.exp).toNat) = 0 then
    some (d.mant / ((10 : Int) ^ (-d.exp).toNat))
  else none

/-! ## XML documents

`XmlNode` models an lxml element: full tag (possibly namespace-qualified),
attributes, the text before the first child, and the child elements.  Tail
text and non-element nodes are never consulted by the extractor and are not
modelled. -/

structure XmlNode where
  tag : String
  attrs : List (String × String)
  text : Option String
  children : List XmlNode

/-- `element.get(key)`. -/
def XmlNode.getAttr? (n : XmlNode) (k : String) : Option String :=
  (n.attrs.find? (fun p => p.1 = k)).map (fun p => p.2)

/-- `element.get(key, default)`. -/
def XmlNode.getAttrD (n : XmlNode) (k d : String) : String :=
  (n.getAttr? k).getD d

/-- The local tag name: `element.tag.rpartition(chr(125))[2]`. -/
def localNameOf (n : XmlNode) : String :=
  afterLastSep '}' n.tag

/-- The `name` attribute after its final colon:
`element.get(str_name, empty).rpartition(colon)[2]`. -/
def nameSuffixOf (n : XmlNode) : String :=
  afterLastSep ':' (n.getAttrD "name" "")

/-- `element.get(str_contextRef, empty)`. -/
def contextRefOf (n : XmlNode) : String :=
  n.getAttrD "contextRef" ""

/-- The xpath `./*[local-name()=s]`: children with the given local name. -/
def childrenNamed (n : XmlNode) (ln : String) : List XmlNode :=
  n.children.filter (fun c => localNameOf c = ln)

mutual

/-- The xpath `//*`: every element of the tree in document order. -/
def allElements : XmlNode → List XmlNode
  | .mk t a tx cs => .mk t a tx cs :: allElementsList cs

def allElementsList : List XmlNode → List XmlNode
  | [] => []
  | c :: cs => allElements c ++ allElementsList cs

end

/-- A parsed document: the root element together with the namespace URI values
of the root nsmap (`document.getroot().nsmap.values()`). -/
structure XmlDoc where
  root : XmlNode
  nsValues : List String

/-! ## Python exceptions the extractor can raise -/

inductive PyError where
  | keyError
  | indexError
  | attributeError
  | valueError
  | typeError
  | invalidOperation
deriving DecidableEq

/-! ## Low level value parsers (`_parse*` in the source) -/

inductive Value where
  | str (s : String)
  | dec (d : Dec)
  | date (d : PyDate)
  | bool (b : Bool)
deriving DecidableEq

/-- The type of the low level parsers: element and (stripped) text to a typed
value, `none` when the parser itself declines, or a raised exception. -/
abbrev ValueParser : Type :=
  XmlNode → String → Except PyError (Option Value)

/-- The gate of `_parse`: the stripped text handed to the parser, or `none`
when the raw text is missing, falsy, or strips to the empty string or a single
dash. -/
def parseGate (t : Option String) : Option String :=
  match t with
  | none => none
  | some s =>
      if s = "" then none
      else
        let st := pyStrip s
        if st = "" || st = "-" then none else some st

/-- `_parse(element, text, parser)`. -/
def _parse (e : XmlNode) (t : Option String) (p : ValueParser) : Except PyError (Option Value) :=
  match parseGate t with
  | none => .ok none
  | some st => p e st

/-- `_parse_str`: replace newlines by spaces, delete double quotes. -/
def _parse_str : ValueParser :=
  fun _ st =>
    .ok (some (.str ⟨(st.toList.map (fun c => if c = '\n' then ' ' else c)).filter
      (fun c => c ≠ '"')⟩))

/-- The sign factor of `_parse_decimal`: `-1` when the `sign` attribute is a
dash, `+1` otherwise. -/
def decSignOf (e : XmlNode) : Int :=
  if e.getAttrD "sign" "" = "-" then -1 else 1

/-- `_parse_decimal`: `sign * Decimal(text without commas) * Decimal(10) **
Decimal(scale attribute, default 0)`, computed exactly on coefficient and
exponent.  A text or scale that the `Decimal` constructor rejects raises
`InvalidOperation`. -/
def _parse_decimal : ValueParser :=
  fun e st =>
    match parseDecLit? ⟨st.toList.filter (fun c => c ≠ ',')⟩ with
    | none => .error .invalidOperation
    | some v =>
        match parseDecLit? (e.getAttrD "scale" "0") with
        | none => .error .invalidOperation
        | some sc =>
            match sc.asInt? with
            | none => .error .invalidOperation
            | some s => .ok (some (.dec ⟨decSignOf e * v.mant, v.exp + s⟩))

/-- The text after the last colon-space pair, modelling
`re.sub(r each-to-colon, empty, text)` on the single-line texts the feed
carries. -/
def afterLastColonSpace : List Char → List Char
  | [] => []
  | c :: rest =>
      if subOccurs [':', ' '] rest then afterLastColonSpace rest
      else if [':', ' '].isPrefixOf (c :: rest) then rest.drop 1
      else c :: rest

/-- `_parse_decimal_with_colon`: strip everything through the last
colon-space, re-gate, then parse as a decimal. -/
def _parse_decimal_with_colon : ValueParser :=
  fun e st => _parse e (some ⟨afterLastColonSpace st.toList⟩) _parse_decimal

/-- `_parse_date` via the permissive date parser. -/
def _parse_date : ValueParser :=
  fun _ st =>
    match parseDateutil? st with
    | none => .error .valueError
    | some d => .ok (some (.date d))

def _parse_bool : ValueParser :=
  fun _ st =>
    .ok (if st = "false" then some (.bool false)
         else if st = "true" then some (.bool true)
         else none)

def _parse_reversed_bool : ValueParser :=
  fun _ st =>
    .ok (if st = "true" then some (.bool false)
         else if st = "false" then some (.bool true)
         else none)

/-! ## Matcher catalog

The `_test` dataclasses become `MTest`: a kind tag, the lookup name, and the
search function.  The default search yields the element itself. -/

inductive TKind where
  | tn
  | av
  | custom
deriving DecidableEq

structure MTest where
  kind : TKind
  name : Option String
  search : XmlNode → String → String → String → List XmlNode

def defaultSearch : XmlNode → String → String → String → List XmlNode :=
  fun e _ _ _ => [e]

def _tn (nm : String) : MTest :=
  ⟨.tn, some nm, defaultSearch⟩

def _av (nm : String) : MTest :=
  ⟨.av, some nm, defaultSearch⟩

/-- The extra search of the `Creditors` attribute-value candidate.  The source
reads the raw `contextRef` attribute here; this search runs only after the
periodic handler has checked that `contextRef` is nonempty, so the attribute is
present and the default used here is unreachable. -/
def creditorsWithinSearch : XmlNode → String → String → String → List XmlNode :=
  fun e _ _ _ => if pyContains (e.getAttrD "contextRef" "") "WithinOneYear" then [e] else []

def creditorsAfterSearch : XmlNode → String → String → String → List XmlNode :=
  fun e ln _ cr => if ln = "Creditors" && pyContains cr "AfterOneYear" then [e] else []

def equityShareCapitalSearch : XmlNode → String → String → String → List XmlNode :=
  fun e _ av _ =>
    if av = "Equity" && pyContains (e.getAttrD "contextRef" "") "ShareCapital" then [e] else []

def equityRetainedSearch : XmlNode → String → String → String → List XmlNode :=
  fun e _ av _ =>
    if av = "Equity" && pyContains (e.getAttrD "contextRef" "") "RetainedEarningsAccumulatedLosses"
    then [e] else []

def equityNotSegmentSearch : XmlNode → String → String → String → List XmlNode :=
  fun e _ av cr => if av = "Equity" && !pyContains cr "segment" then [e] else []

/-- The custom fallback of `entity_current_legal_name`: the xpath
`./*[local-name() is span][1]`, the first span child of the element under
test, whatever that element is. -/
def firstSpanChildSearch : XmlNode → String → String → String → List XmlNode :=
  fun e _ _ _ => (childrenNamed e "span").take 1

def GENERAL_XPATH_MAPPINGS : List (String × List (MTest × ValueParser)) :=
  [ ("balance_sheet_date",
      [ (_av "BalanceSheetDate", _parse_date),
        (_tn "BalanceSheetDate", _parse_date) ]),
    ("companies_house_registered_number",
      [ (_av "UKCompaniesHouseRegisteredNumber", _parse_str),
        (_tn "CompaniesHouseRegisteredNumber", _parse_str) ]),
    ("entity_current_legal_name",
      [ (_av "EntityCurrentLegalOrRegisteredName", _parse_str),
        (_tn "EntityCurrentLegalName", _parse_str),
        (⟨.custom, none, firstSpanChildSearch⟩, _parse_str) ]),
    ("company_dormant",
      [ (_av "EntityDormantTruefalse", _parse_bool),
        (_av "EntityDormant", _parse_bool),
        (_tn "CompanyDormant", _parse_bool),
        (_tn "CompanyNotDormant", _parse_reversed_bool) ]),
    ("average_number_employees_during_period",
      [ (_av "AverageNumberEmployeesDuringPeriod", _parse_decimal_with_colon),
        (_av "EmployeesTotal", _parse_decimal_with_colon),
        (_tn "AverageNumberEmployeesDuringPeriod", _parse_decimal_with_colon),
        (_tn "EmployeesTotal", _parse_decimal_with_colon) ]) ]

def PERIODICAL_XPATH_MAPPINGS : List (String × List (MTest × ValueParser)) :=
  [ ("tangible_fixed_assets",
      [ (_tn "FixedAssets", _parse_decimal),
        (_av "FixedAssets", _parse_decimal),
        (_tn "TangibleFixedAssets", _parse_decimal),
        (_av "TangibleFixedAssets", _parse_decimal),
        (_av "PropertyPlantEquipment", _parse_decimal) ]),
    ("debtors",
      [ (_tn "Debtors", _parse_decimal),
        (_av "Debtors", _parse_decimal) ]),
    ("cash_bank_in_hand",
      [ (_tn "CashBankInHand", _parse_decimal),
        (_av "CashBankInHand", _parse_decimal),
        (_av "CashBankOnHand", _parse_decimal) ]),
    ("current_assets",
      [ (_tn "CurrentAssets", _parse_decimal),
        (_av "CurrentAssets", _parse_decimal) ]),
    ("creditors_due_within_one_year",
      [ (_av "CreditorsDueWithinOneYear", _parse_decimal),
        (⟨.av, some "Creditors", creditorsWithinSearch⟩, _parse_decimal) ]),
    ("creditors_due_after_one_year",
      [ (_av "CreditorsDueAfterOneYear", _parse_decimal),
        (⟨.custom, none, creditorsAfterSearch⟩, _parse_decimal) ]),
    ("net_current_assets_liabilities",
      [ (_tn "NetCurrentAssetsLiabilities", _parse_decimal),
        (_av "NetCurrentAssetsLiabilities", _parse_decimal) ]),
    ("total_assets_less_current_liabilities",
      [ (_tn "TotalAssetsLessCurrentLiabilities", _parse_decimal),
        (_av "TotalAssetsLessCurrentLiabilities", _parse_decimal) ]),
    ("net_assets_liabilities_including_pension_asset_liability",
      [ (_tn "NetAssetsLiabilitiesIncludingPensionAssetLiability", _parse_decimal),
        (_av "NetAssetsLiabilitiesIncludingPensionAssetLiability", _parse_decimal),
        (_tn "NetAssetsLiabilities", _parse_decimal),
        (_av "NetAssetsLiabilities", _parse_decimal) ]),
    ("called_up_share_capital",
      [ (_tn "CalledUpShareCapital", _parse_decimal),
        (_av "CalledUpShareCapital", _parse_decimal),
        (⟨.custom, none, equityShareCapitalSearch⟩, _parse_decimal) ]),
    ("profit_loss_account_reserve",
      [ (_tn "ProfitLossAccountReserve", _parse_decimal),
        (_av "ProfitLossAccountReserve", _parse_decimal),
        (⟨.custom, none, equityRetainedSearch⟩, _parse_decimal) ]),
    ("shareholder_funds",
      [ (_tn "ShareholderFunds", _parse_decimal),
        (_av "ShareholderFunds", _parse_decimal),
        (⟨.custom, none, equityNotSegmentSearch⟩, _parse_decimal) ]),
    ("turnover_gross_operating_revenue",
      [ (_tn "TurnoverGrossOperatingRevenue", _parse_decimal),
        (_av "TurnoverGrossOperatingRevenue", _parse_decimal),
        (_tn "TurnoverRevenue", _parse_decimal),
        (_av "TurnoverRevenue", _parse_decimal) ]),
    ("other_operating_income",
      [ (_tn "OtherOperatingIncome", _parse_decimal),
        (_av "OtherOperatingIncome", _parse_decimal),
        (_tn "OtherOperatingIncomeFormat2", _parse_decimal),
        (_av "OtherOperatingIncomeFormat2", _parse_decimal) ]),
    ("cost_sales",
      [ (_tn "CostSales", _parse_decimal),
        (_av "CostSales", _parse_decimal) ]),
    ("gross_profit_loss",
      [ (_tn "GrossProfitLoss", _parse_decimal),
        (_av "GrossProfitLoss", _parse_decimal) ]),
    ("administrative_expenses",
      [ (_tn "AdministrativeExpenses", _parse_decimal),
        (_av "AdministrativeExpenses", _parse_decimal) ]),
    ("raw_materials_consumables",
      [ (_tn "RawMaterialsConsumables", _parse_decimal),
        (_av "RawMaterialsConsumables", _parse_decimal),
        (_tn "RawMaterialsConsumablesUsed", _parse_decimal),
        (_av "RawMaterialsConsumablesUsed", _parse_decimal) ]),
    ("staff_costs",
      [ (_tn "StaffCosts", _parse_decimal),
        (_av "StaffCosts", _parse_decimal),
        (_tn "StaffCostsEmployeeBenefitsExpense", _parse_decimal),
        (_av "StaffCostsEmployeeBenefitsExpense", _parse_decimal) ]),
    ("depreciation_other_amounts_written_off_tangible_intangible_fixed_assets",
      [ (_tn "DepreciationOtherAmountsWrittenOffTangibleIntangibleFixedAssets", _parse_decimal),
        (_av "DepreciationOtherAmountsWrittenOffTangibleIntangibleFixedAssets", _parse_decimal),
        (_tn "DepreciationAmortisationImpairmentExpense", _parse_decimal),
        (_av "DepreciationAmortisationImpairmentExpense", _parse_decimal) ]),
    ("other_operating_charges_format2",
      [ (_tn "OtherOperatingChargesFormat2", _parse_decimal),
        (_av "OtherOperatingChargesFormat2", _parse_decimal),
        (_tn "OtherOperatingExpensesFormat2", _parse_decimal),
        (_av "OtherOperatingExpensesFormat2", _parse_decimal) ]),
    ("operating_profit_loss",
      [ (_tn "OperatingProfitLoss", _parse_decimal),
        (_av "OperatingProfitLoss", _parse_decimal) ]),
    ("profit_loss_on_ordinary_activities_before_tax",
      [ (_tn "ProfitLossOnOrdinaryActivitiesBeforeTax", _parse_decimal),
        (_av "ProfitLossOnOrdinaryActivitiesBeforeTax", _parse_decimal) ]),
    ("tax_on_profit_or_loss_on_ordinary_activities",
      [ (_tn "TaxOnProfitOrLossOnOrdinaryActivities", _parse_decimal),
        (_av "TaxOnProfitOrLossOnOrdinaryActivities", _parse_decimal),
        (_tn "TaxTaxCreditOnProfitOrLossOnOrdinaryActivities", _parse_decimal),
        (_av "TaxTaxCreditOnProfitOrLossOnOrdinaryActivities", _parse_decimal) ]),
    ("profit_loss_for_period",
      [ (_tn "ProfitLoss", _parse_decimal),
        (_av "ProfitLoss", _parse_decimal),
        (_tn "ProfitLossForPeriod", _parse_decimal),
        (_av "ProfitLossForPeriod", _parse_decimal) ]) ]

def ALL_MAPPINGS : List (String × List (MTest × ValueParser)) :=
  GENERAL_XPATH_MAPPINGS ++ PERIODICAL_XPATH_MAPPINGS

/-! ## Matcher tables

Dictionary comprehensions keyed on `test.name`; a later entry for the same key
overrides an earlier one (no key is duplicated in the actual catalog). -/

structure CandEntry where
  col : String
  prio : Nat
  test : MTest
  parse : ValueParser

/-- The catalog flattened to `(column, priority, test, parser)` rows, priority
being the index in the candidate list of the column. -/
def catalogEntries : List CandEntry :=
  ALL_MAPPINGS.foldr
    (fun p acc => (p.2.enum.map (fun q => ⟨p.1, q.1, q.2.1, q.2.2⟩)) ++ acc) []

def dictInsert (k : Option String) (v : CandEntry) (d : List (Option String × CandEntry)) :
    List (Option String × CandEntry) :=
  if (d.find? (fun p => decide (p.1 = k))).isSome then
    d.map (fun p => if p.1 = k then (k, v) else p)
  else
    d ++ [(k, v)]

def dictGet? : List (Option String × CandEntry) → Option String → Option CandEntry
  | [], _ => none
  | p :: rest, k => if p.1 = k then some p.2 else dictGet? rest k

def TAG_NAME_TESTS : List (Option String × CandEntry) :=
  (catalogEntries.filter (fun ce => ce.test.kind = .tn)).foldl
    (fun d ce => dictInsert ce.test.name ce d) []

def ATTRIBUTE_VALUE_TESTS : List (Option String × CandEntry) :=
  (catalogEntries.filter (fun ce => ce.test.kind = .av)).foldl
    (fun d ce => dictInsert ce.test.name ce d) []

def CUSTOM_TESTS : List CandEntry :=
  catalogEntries.filter (fun ce => ce.test.kind = .custom)

/-- The candidates consulted for one element: the zero-or-one tag-name hit,
the zero-or-one attribute-value hit, then every custom test, in that order. -/
def candidatesFor (ln av : String) : List CandEntry :=
  (dictGet? TAG_NAME_TESTS (some ln)).toList ++
    (dictGet? ATTRIBUTE_VALUE_TESTS (some av)).toList ++ CUSTOM_TESTS

/-! ## Context index -/

/-- `_get_dates`, applied to the period child of a context.  The two dead
branches of the source conditional are kept as comments: the `context is None`
branch (the call site always passes an element) and the branch returning
`(None, None)` when the first `startDate`/`endDate` text node is `None` (an
xpath text node is never `None`; when no text node exists, the `[0]` index
raises `IndexError` first). -/
def _get_dates (context : XmlNode) : Except PyError (Option String × Option String) :=
  let instants := childrenNamed context "instant"
  let starts := (childrenNamed context "startDate").filterMap (fun c => c.text)
  let ends := (childrenNamed context "endDate").filterMap (fun c => c.text)
  match instants with
  | i :: _ =>
      match i.text with
      | none => .error .attributeError
      | some t => .ok (some (pyStrip t), some (pyStrip t))
  | [] =>
      match starts with
      | [] => .error .indexError
      | s :: _ =>
          match ends with
          | [] => .error .indexError
          | e :: _ => .ok (some (pyStrip s), some (pyStrip e))

/-- The context index: one entry per `context` element in document order,
keyed by the `id` attribute (possibly absent). -/
abbrev ContextDict : Type :=
  List (Option String × (Option String × Option String))

/-- Lookup in the context dictionary; a later binding for the same id shadows
an earlier one, as in a Python dict comprehension. -/
def ctxDictGet? : ContextDict → String → Option (Option String × Option String)
  | [], _ => none
  | p :: rest, k =>
      match ctxDictGet? rest k with
      | some v => some v
      | none => if p.1 = some k then some p.2 else none

/-- Build `context_dates`: for every element with local name `context`, take
the first `period` child (IndexError when absent) and read its dates. -/
def buildContextDates (root : XmlNode) : Except PyError ContextDict :=
  ((allElements root).filter (fun e => localNameOf e = "context")).mapM
    (fun e => do
      let period ← match childrenNamed e "period" with
        | [] => Except.error PyError.indexError
        | p :: _ => Except.ok p
      let d ← _get_dates period
      Except.ok (e.getAttr? "id", d))

/-! ## Extraction state and handlers -/

/-- A slot: the priority of the stored value (10 when empty) and the value. -/
abbrev Slot : Type :=
  Nat × Option Value

abbrev SlotMap : Type :=
  List (String × Slot)

def initSlots (keys : List String) : SlotMap :=
  keys.map (fun k => (k, (10, none)))

def slotGet : SlotMap → String → Slot
  | [], _ => (10, none)
  | p :: rest, k => if p.1 = k then p.2 else slotGet rest k

def slotSet : SlotMap → String → Slot → SlotMap
  | [], _, _ => []
  | p :: rest, k, s => if p.1 = k then (p.1, s) :: slotSet rest k s else p :: slotSet rest k s

/-- Is the key present in the slot map (Python `name in dict`)? -/
def slotMem : SlotMap → String → Bool
  | [], _ => false
  | p :: rest, k => p.1 = k || slotMem rest k

def generalKeys : List String :=
  GENERAL_XPATH_MAPPINGS.map (fun p => p.1)

def periodicKeys : List String :=
  PERIODICAL_XPATH_MAPPINGS.map (fun p => p.1)

/-- The periodic buckets: a dict from date pairs to slot maps, in insertion
order (`defaultdict`). -/
abbrev Buckets : Type :=
  List ((Option String × Option String) × SlotMap)

def bucketFind? : Buckets → (Option String × Option String) → Option SlotMap
  | [], _ => none
  | p :: rest, k => if p.1 = k then some p.2 else bucketFind? rest k

/-- Reading `periodic_attributes_with_priorities[dates]` materializes the
bucket when it is absent (defaultdict), appending it in insertion order. -/
def bucketGet (b : Buckets) (k : Option String × Option String) : Buckets × SlotMap :=
  match bucketFind? b k with
  | some m => (b, m)
  | none => (b ++ [(k, initSlots periodicKeys)], initSlots periodicKeys)

def bucketSet : Buckets → (Option String × Option String) → SlotMap → Buckets
  | [], _, _ => []
  | p :: rest, k, m => if p.1 = k then (p.1, m) :: bucketSet rest k m else p :: bucketSet rest k m

/-- The inner loop of `handle_general` over the elements the search yields:
parse each, store the first non-null value at this priority, stop there. -/
def handleGeneralLoop (p : ValueParser) (name : String) (prio : Nat) (g : SlotMap) :
    List XmlNode → Except PyError SlotMap
  | [] => .ok g
  | el :: rest => do
      let v ← _parse el el.text p
      match v with
      | some value => .ok (slotSet g name (prio, some value))
      | none => handleGeneralLoop p name prio g rest

/-- `handle_general`: skip when the candidate priority is strictly worse than
the stored one (an equal priority is allowed through). -/
def handle_general (g : SlotMap) (e : XmlNode) (ln av cr : String) (ce : CandEntry) :
    Except PyError SlotMap :=
  let best := slotGet g ce.col
  if ce.prio > best.1 then .ok g
  else handleGeneralLoop ce.parse ce.col ce.prio g (ce.test.search e ln av cr)

/-- The inner loop of `handle_periodic`: every iteration re-reads (and hence
materializes) the bucket, returns when the priority is not strictly better,
otherwise stores the first non-null value. -/
def handlePeriodicLoop (p : ValueParser) (name : String) (prio : Nat)
    (dates : Option String × Option String) (b : Buckets) :
    List XmlNode → Except PyError Buckets
  | [] => .ok b
  | el :: rest => do
      let (b1, slots) := bucketGet b dates
      let best := slotGet slots name
      if prio ≥ best.1 then .ok b1
      else do
        let v ← _parse el el.text p
        match v with
        | some value => .ok (bucketSet b1 dates (slotSet slots name (prio, some value)))
        | none => handlePeriodicLoop p name prio dates b1 rest

/-- `handle_periodic`: drop when `contextRef` is empty; look the reference up
in `context_dates`, raising `KeyError` when it is not a key.  The source line
`if not dates: return` never fires, since `dates` is a two-tuple and hence
always truthy in Python, and is therefore not represented. -/
def handle_periodic (ctx : ContextDict) (b : Buckets) (e : XmlNode) (ln av cr : String)
    (ce : CandEntry) : Except PyError Buckets :=
  if cr = "" then .ok b
  else
    match ctxDictGet? ctx cr with
    | none => .error .keyError
    | some dates => handlePeriodicLoop ce.parse ce.col ce.prio dates b (ce.test.search e ln av cr)

structure ExtState where
  general : SlotMap
  buckets : Buckets

def initExtState : ExtState :=
  ⟨initSlots generalKeys, []⟩

/-- Dispatch one candidate: `handle_general` when the column is a key of the
general dict, `handle_periodic` otherwise. -/
def processCandidate (ctx : ContextDict) (e : XmlNode) (ln av cr : String) (st : ExtState)
    (ce : CandEntry) : Except PyError ExtState :=
  if slotMem st.general ce.col then do
    let g ← handle_general st.general e ln av cr ce
    .ok ⟨g, st.buckets⟩
  else do
    let b ← handle_periodic ctx st.buckets e ln av cr ce
    .ok ⟨st.general, b⟩

/-- Process one element of the traversal: compute its local name, name-suffix
and context reference, then run every candidate in chain order. -/
def processElement (ctx : ContextDict) (st : ExtState) (e : XmlNode) : Except PyError ExtState :=
  (candidatesFor (localNameOf e) (nameSuffixOf e)).foldlM
    (fun s ce => processCandidate ctx e (localNameOf e) (nameSuffixOf e) (contextRefOf e) s ce) st

/-- The single pass over every element of the document. -/
def runTraversal (ctx : ContextDict) (root : XmlNode) : Except PyError ExtState :=
  (allElements root).foldlM (processElement ctx) initExtState

/-! ## Filename pattern -/

/-- Maximal nonempty run of characters satisfying the predicate, with the
rest; fails on an empty run.  Models a nonempty greedy character class of the
filename pattern. -/
def pSpan1 (pred : Char → Bool) (l : List Char) : Option (List Char × List Char) :=
  match l.span pred with
  | ([], _) => none
  | (d, r) => some (d, r)

/-- A single literal character. -/
def pChar (c : Char) : List Char → Option (List Char)
  | [] => none
  | x :: r => if x = c then some r else none

/-- Exactly eight ASCII digits. -/
def pDate8 (l : List Char) : Option (List Char × List Char) :=
  if (l.take 8).length = 8 && (l.take 8).all isAsciiDigit then some (l.take 8, l.drop 8)
  else none

/-- The alternation `html|xml`, preferring the first branch as a regex
alternation does. -/
def pExt (r : List Char) : Option String :=
  if ['h', 't', 'm', 'l'].isPrefixOf r then some "html"
  else if ['x', 'm', 'l'].isPrefixOf r then some "xml"
  else none

/-- `re.match` against `(Prod[0-9]+_[0-9]+)_([^_]+)_([0-9]x8)\.(html|xml)` at
the start of the string (the source pattern has no end anchor, so trailing
characters are ignored).  Each greedy class of the pattern is delimited by a
literal, so backtracking cannot produce any other split and the match is
computed by a deterministic left-to-right scan. -/
def matchFilenameList (l : List Char) : Option (String × String × String × String) := do
  let r0 ← if ['P', 'r', 'o', 'd'].isPrefixOf l then some (l.drop 4) else none
  let (d1, r1) ← pSpan1 isAsciiDigit r0
  let r2 ← pChar '_' r1
  let (d2, r3) ← pSpan1 isAsciiDigit r2
  let r4 ← pChar '_' r3
  let (comp, r5) ← pSpan1 (fun c => c ≠ '_') r4
  let r6 ← pChar '_' r5
  let (date, r7) ← pDate8 r6
  let r8 ← pChar '.' r7
  let ext ← pExt r8
  some (⟨['P', 'r', 'o', 'd'] ++ d1 ++ ['_'] ++ d2⟩, ⟨comp⟩, ⟨date⟩, ext)

def matchFilename? (fn : String) : Option (String × String × String × String) :=
  matchFilenameList fn.toList

/-- The pattern as the specification words it, with an end anchor: the match
must consume the whole basename. -/
def matchFilenameAnchored? (fn : String) : Option (String × String × String × String) :=
  match matchFilename? fn with
  | none => none
  | some (rc, ci, dt, ft) =>
      if fn = rc ++ "_" ++ ci ++ "_" ++ dt ++ "." ++ ft then some (rc, ci, dt, ft) else none

/-! ## Row assembly -/

abbrev Row : Type :=
  List (Option Value)

def allowed_taxonomies : List String :=
  [ "http://www.xbrl.org/uk/fr/gaap/pt/2004-12-01",
    "http://www.xbrl.org/uk/gaap/core/2009-09-01",
    "http://xbrl.frc.org.uk/fr/2014-09-01/core" ]

/-- The taxonomy column: the whitelisted namespace URIs that the document
declares, joined by semicolons.  The source iterates a Python set here, whose
order is unspecified; the model fixes the whitelist order. -/
def taxonomyOf (nsValues : List String) : String :=
  String.intercalate ";" (allowed_taxonomies.filter (fun t => nsValues.contains t))

/-- `datetime.date.fromisoformat` on a context date: `TypeError` on `None`,
`ValueError` on a non-ISO string. -/
def isoOrError (s : Option String) : Except PyError PyDate :=
  match s with
  | none => .error .typeError
  | some t =>
      match fromisoformat? t with
      | none => .error .valueError
      | some d => .ok d

/-- Stable insertion used to model `sorted`. -/
def insertStable (le : α → α → Bool) (x : α) : List α → List α
  | [] => [x]
  | y :: ys => if le x y then x :: y :: ys else y :: insertStable le x ys

/-- Stable sort placing `x` before `y` whenever `le x y`; extensionally the
sort Python `sorted` performs for a total preorder. -/
def pySorted (le : α → α → Bool) : List α → List α
  | [] => []
  | x :: xs => insertStable le x (pySorted le xs)

abbrev PeriodTuple : Type :=
  (PyDate × PyDate) × List (Option Value)

/-- `sorted(periods, key, reverse=True)`: stable and descending on the
`(period_start, period_end)` key. -/
def descOrder (a b : PeriodTuple) : Bool :=
  datePairLeB b.1 a.1

/-- One periodic bucket turned into a period tuple: parse both key dates with
`fromisoformat` and read the 25 values in catalog order. -/
def periodOf (p : (Option String × Option String) × SlotMap) : Except PyError PeriodTuple := do
  let s ← isoOrError p.1.1
  let e ← isoOrError p.1.2
  Except.ok (((s, e), periodicKeys.map (fun name => (slotGet p.2 name).2)) : PeriodTuple)

/-- The tail of the row assembly: parse every bucket key as a pair of ISO
dates, sort descending, and emit one row per period, or the single
all-null-period row when no bucket exists. -/
def assembleRows (core general : List (Option Value)) (buckets : Buckets) :
    Except PyError (List Row) := do
  let periods ← buckets.mapM periodOf
  let sortedPeriods := pySorted descOrder periods
  match sortedPeriods with
  | [] => .ok [core ++ general ++ List.replicate (2 + periodicKeys.length) none]
  | _ =>
      .ok (sortedPeriods.map (fun p =>
        core ++ general ++ ([some (.date p.1.1), some (.date p.1.2)] ++ p.2)))

/-- `_xbrl_to_rows` from the parsed document on: build the context index,
match the basename against the filename pattern (`AttributeError` via
`mo.groups()` when the match fails), assemble the core attributes, run the
traversal, and emit the rows. -/
def _xbrl_to_rows (name : String) (doc : XmlDoc) : Except PyError (List Row) := do
  let ctxDates ← buildContextDates doc.root
  let groups ← match matchFilename? (pyBasename name) with
    | none => Except.error PyError.attributeError
    | some g => Except.ok g
  let d ← match parseDateutil? groups.2.2.1 with
    | none => Except.error PyError.valueError
    | some d => Except.ok d
  let core : List (Option Value) :=
    [ some (.str groups.1), some (.str groups.2.1), some (.date d), some (.str groups.2.2.2),
      some (.str (taxonomyOf doc.nsValues)) ]
  let st ← runTraversal ctxDates doc.root
  let general := generalKeys.map (fun k => (slotGet st.general k).2)
  assembleRows core general st.buckets

/-! ## Byte-level input normalization -/

/-- `bytes.find` for the byte of `<` (60): index of its first occurrence. -/
def byteFind60 : List Nat → Option Nat
  | [] => none
  | x :: r => if x = 60 then some 0 else (byteFind60 r).map (fun i => i + 1)

/-- The slice `xbrl_xml_str[xbrl_xml_str.find(lt_byte):]`: drop everything
before the first `<` byte (byte 60).  When no `<` occurs, `find` returns `-1`
and the Python slice keeps only the final byte. -/
def bomStrip (bs : List Nat) : List Nat :=
  match byteFind60 bs with
  | some i => bs.drop i
  | none => bs.drop (bs.length - 1)

/-- The extractor seen from raw bytes: normalize, parse (the XML parser is a
parameter, not modelled), then extract rows. -/
def extractWith (parseXml : List Nat → XmlDoc) (name : String) (bs : List Nat) :
    Except PyError (List Row) :=
  _xbrl_to_rows name (parseXml (bomStrip bs))

/-! ## Concrete documents used by the theorems below -/

/-- A trivial document: a bare root with no facts. -/
def docPlain : XmlDoc :=
  ⟨⟨"xbrl", [], none, []⟩, []⟩

/-- A well-formed instant context with id c1 plus a periodic fact whose
context reference resolves to nothing, and a second fact whose reference is
fine. -/
def docUnknownCtx : XmlDoc :=
  ⟨⟨"xbrl", [], none,
    [ ⟨"context", [("id", "c1")], none,
        [⟨"period", [], none, [⟨"instant", [], some "2022-12-31", []⟩]⟩]⟩,
      ⟨"FixedAssets", [("contextRef", "missing")], some "5", []⟩,
      ⟨"CashBankInHand", [("contextRef", "c1")], some "7", []⟩ ]⟩, []⟩

/-- One element matching the tag-name candidate of
companies_house_registered_number (priority 1). -/
def docTieFirst : XmlDoc :=
  ⟨⟨"xbrl", [], none,
    [ ⟨"CompaniesHouseRegisteredNumber", [], some "11111111", []⟩ ]⟩, []⟩

/-- Two elements matching the same tag-name candidate, hence the same
priority, with different texts. -/
def docTieGeneral : XmlDoc :=
  ⟨⟨"xbrl", [], none,
    [ ⟨"CompaniesHouseRegisteredNumber", [], some "11111111", []⟩,
      ⟨"CompaniesHouseRegisteredNumber", [], some "22222222", []⟩ ]⟩, []⟩

/-- A period element with an endDate child but no startDate child. -/
def periodMissingStart : XmlNode :=
  ⟨"period", [], none, [⟨"endDate", [], some "2022-01-01", []⟩]⟩

/-- A document whose only context has a period with a missing startDate. -/
def docMissingStartDate : XmlDoc :=
  ⟨⟨"xbrl", [], none,
    [ ⟨"context", [("id", "c1")], none, [periodMissingStart]⟩ ]⟩, []⟩

/-- A document with no entity-name element at all: just a div holding a span
with text. -/
def docSpanDiv : XmlDoc :=
  ⟨⟨"xbrl", [], none,
    [ ⟨"div", [], none, [⟨"span", [], some "SOME NAME", []⟩]⟩ ]⟩, []⟩

/-! ## C1 -/

set_option maxRecDepth 10000 in
/-- C1 claims that a periodic fact with an empty contextRef, an unknown
contextRef, or a context of null dates is silently dropped with the rest of
the document still extracted.  Only the empty-contextRef part holds (first
conjunct).  An unknown contextRef instead raises KeyError from the
`context_dates[context_ref]` lookup, so the whole filing fails and even the
well-referenced CashBankInHand fact of the document yields no row (second
conjunct): the code contradicts the stated drop semantics. -/
theorem C1_missing_context_keyerror :
    (∀ (ctx : ContextDict) (b : Buckets) (e : XmlNode) (ln av : String) (ce : CandEntry),
        handle_periodic ctx b e ln av "" ce = .ok b) ∧
    _xbrl_to_rows "Prod1_1_X_20220101.xml" docUnknownCtx = .error .keyError := by
  constructor
  · intro ctx b e ln av ce
    rfl
  · rfl

/-! ## C3 -/

set_option maxRecDepth 10000 in
/-- C3 claims that a context whose period lacks a startDate or endDate child
(or whose child has null text) maps to (None, None).  The code instead
indexes the first xpath text node, which does not exist, so building the
context index raises IndexError and the filing fails: shown both on
`_get_dates` directly and on the whole extractor. -/
theorem C3_missing_start_date_indexerror :
    _get_dates periodMissingStart = .error .indexError ∧
    _xbrl_to_rows "Prod1_1_X_20220101.xml" docMissingStartDate = .error .indexError := by
  exact ⟨rfl, rfl⟩

/-! ## C2 -/

set_option maxRecDepth 10000 in
/-- C2 claims that a stored slot of priority p is only ever replaced by a
candidate of priority strictly below p, ties never overwriting.  For a
general column this is false: after the first CompaniesHouseRegisteredNumber
element the slot holds priority 1 with value 11111111 (first conjunct), and a
second element of the same candidate, hence the same priority 1, overwrites
it with 22222222 (second conjunct). -/
theorem C2_equal_priority_overwrites_counterexample :
    (runTraversal [] docTieFirst.root).map
        (fun st => slotGet st.general "companies_house_registered_number") =
      .ok (1, some (.str "11111111")) ∧
    (runTraversal [] docTieGeneral.root).map
        (fun st => slotGet st.general "companies_house_registered_number") =
      .ok (1, some (.str "22222222")) := by
  exact ⟨rfl, rfl⟩

/-! ## C4 -/

set_option maxRecDepth 10000 in
/-- C4 claims the span fallback of entity_current_legal_name only fires on
EntityCurrentLegalOrRegisteredName elements.  In `docSpanDiv` no element has
that name attribute or local name (first conjunct), yet the extractor sets
entity_current_legal_name, column index 7, to the span text (second
conjunct): the custom rule fires on a plain div. -/
theorem C4_span_fallback_counterexample :
    (∀ e ∈ allElements docSpanDiv.root,
        nameSuffixOf e ≠ "EntityCurrentLegalOrRegisteredName" ∧
        localNameOf e ≠ "EntityCurrentLegalOrRegisteredName") ∧
    (_xbrl_to_rows "Prod1_1_X_20220101.xml" docSpanDiv).map
        (fun rows => rows.map (fun r => r.get? 7)) =
      .ok [some (some (.str "SOME NAME"))] := by
  constructor
  · decide
  · rfl

/-! ## C5 counterexample -/

set_option maxRecDepth 10000 in
/-- C5 claims the filename pattern is anchored at both ends, so that a
basename with trailing characters after the extension does not match.  The
source pattern has no end anchor: the basename with a trailing X fails the
anchored pattern (first conjunct) but matches the source pattern with the
same four groups (second conjunct), and extraction on that name succeeds
(third conjunct). -/
theorem C5_filename_anchor_counterexample :
    matchFilenameAnchored? "Prod1_1_A_20220101.xmlX" = none ∧
    matchFilename? "Prod1_1_A_20220101.xmlX" = some ("Prod1_1", "A", "20220101", "xml") ∧
    (_xbrl_to_rows "Prod1_1_A_20220101.xmlX" docPlain).isOk = true := by
  exact ⟨rfl, rfl, rfl⟩

/-! ## C9 -/

lemma byteFind60_append (p b : List Nat) (hp : ∀ x ∈ p, x ≠ 60) :
    byteFind60 (p ++ b) = (byteFind60 b).map (fun i => i + p.length) := by
  induction p with
  | nil =>
      show byteFind60 b = (byteFind60 b).map (fun i => i + 0)
      cases byteFind60 b
      · rfl
      · simp
  | cons x r ih =>
      have hx : x ≠ 60 := hp x (List.mem_cons_self x r)
      have hr : ∀ y ∈ r, y ≠ 60 := fun y hy => hp y (List.mem_cons_of_mem x hy)
      show (if x = 60 then some 0 else (byteFind60 (r ++ b)).map (fun i => i + 1)) = _
      rw [if_neg hx, ih hr]
      cases hfb : byteFind60 b with
      | none => rfl
      | some i =>
          simp only [Option.map_some', List.length_cons]
          exact congrArg some (by omega)

lemma byteFind60_of_mem {b : List Nat} (hb : 60 ∈ b) : ∃ i, byteFind60 b = some i := by
  induction b with
  | nil => cases hb
  | cons x r ih =>
      by_cases hx : x = 60
      · refine ⟨0, ?_⟩
        show (if x = 60 then some 0 else (byteFind60 r).map (fun i => i + 1)) = some 0
        rw [if_pos hx]
      · have h60 : 60 ∈ r := by
          cases List.mem_cons.mp hb with
          | inl h => exact absurd h.symm hx
          | inr h => exact h
        obtain ⟨i, hi⟩ := ih h60
        refine ⟨i + 1, ?_⟩
        show (if x = 60 then some 0 else (byteFind60 r).map (fun i => i + 1)) = some (i + 1)
        rw [if_neg hx, hi]
        rfl

/-- C9: prepending bytes containing no `<` (such as a UTF-8 BOM) to input
whose XML content starts at its first `<` byte leaves the extractor output
unchanged, because the slice up to the first `<` removes exactly the prefix
before parsing. -/
theorem C9_bom_prefix_invariant :
    ∀ (parseXml : List Nat → XmlDoc) (name : String) (p b : List Nat),
      (∀ x ∈ p, x ≠ 60) → 60 ∈ b →
      extractWith parseXml name (p ++ b) = extractWith parseXml name b := by
  intro parseXml name p b hp hb
  obtain ⟨i, hi⟩ := byteFind60_of_mem hb
  have hstrip : bomStrip (p ++ b) = bomStrip b := by
    unfold bomStrip
    rw [byteFind60_append p b hp, hi]
    simp only [Option.map_some']
    rw [Nat.add_comm i p.length, List.drop_append]
  unfold extractWith
  rw [hstrip]

/-- C9 witness: a concrete UTF-8 BOM prefix in front of concrete bytes whose
first content byte is `<`. -/
theorem C9_bom_prefix_invariant_witness :
    (∀ x ∈ [239, 187, 191], x ≠ 60) ∧ 60 ∈ [60, 120] ∧
    extractWith (fun _ => docPlain) "n" ([239, 187, 191] ++ [60, 120]) =
      extractWith (fun _ => docPlain) "n" [60, 120] :=
  ⟨by decide, by decide,
    C9_bom_prefix_invariant (fun _ => docPlain) "n" [239, 187, 191] [60, 120]
      (by decide) (by decide)⟩

/-! ## Slot and bucket lemmas -/

lemma except_bind_ok {α β : Type} (a : α) (f : α → Except PyError β) :
    (Except.ok a >>= f) = f a := rfl

lemma except_bind_error {α β : Type} (e : PyError) (f : α → Except PyError β) :
    ((Except.error e : Except PyError α) >>= f) = Except.error e := rfl

lemma slotGet_slotSet_self {g : SlotMap} {k : String} (s : Slot) (h : slotMem g k = true) :
    slotGet (slotSet g k s) k = s := by
  induction g with
  | nil => cases h
  | cons p rest ih =>
      by_cases hp : p.1 = k
      · simp [slotSet, hp, slotGet]
      · have h2 : slotMem rest k = true := by
          simpa [slotMem, hp] using h
        simp [slotSet, hp, slotGet, ih h2]

lemma slotSet_of_not_mem {g : SlotMap} {k : String} (s : Slot) (h : slotMem g k = false) :
    slotSet g k s = g := by
  induction g with
  | nil => rfl
  | cons p rest ih =>
      by_cases hp : p.1 = k
      · simp [slotMem, hp] at h
      · have h2 : slotMem rest k = false := by
          simpa [slotMem, hp] using h
        simp [slotSet, hp, ih h2]

lemma slotGet_slotSet_ne {g : SlotMap} {k k' : String} (s : Slot) (h : k' ≠ k) :
    slotGet (slotSet g k s) k' = slotGet g k' := by
  induction g with
  | nil => rfl
  | cons p rest ih =>
      show slotGet (if p.1 = k then (p.1, s) :: slotSet rest k s else p :: slotSet rest k s) k' =
        slotGet (p :: rest) k'
      by_cases hp : p.1 = k
      · have hne : ¬ p.1 = k' := fun hc => h (hc ▸ hp)
        rw [if_pos hp]
        show (if p.1 = k' then s else slotGet (slotSet rest k s) k') = _
        rw [if_neg hne, ih]
        show _ = (if p.1 = k' then p.2 else slotGet rest k')
        rw [if_neg hne]
      · rw [if_neg hp]
        show (if p.1 = k' then p.2 else slotGet (slotSet rest k s) k') =
          (if p.1 = k' then p.2 else slotGet rest k')
        by_cases hk' : p.1 = k'
        · rw [if_pos hk', if_pos hk']
        · rw [if_neg hk', if_neg hk', ih]

lemma slotGet_initSlots (ks : List String) (k : String) :
    slotGet (initSlots ks) k = (10, none) := by
  induction ks with
  | nil => rfl
  | cons a rest ih =>
      by_cases ha : a = k
      · simp [initSlots, slotGet, ha]
      · simpa [initSlots, slotGet, ha] using ih

/-- The slot stored under a date key: the defaultdict view, giving the
initial slot when the bucket key is absent. -/
def periodicSlot (b : Buckets) (k : Option String × Option String) (nm : String) : Slot :=
  match bucketFind? b k with
  | some m => slotGet m nm
  | none => (10, none)

lemma bucketFind?_append_single (b : Buckets) (k k' : Option String × Option String)
    (m : SlotMap) :
    bucketFind? (b ++ [(k, m)]) k' =
      match bucketFind? b k' with
      | some m' => some m'
      | none => if k = k' then some m else none := by
  induction b with
  | nil => rfl
  | cons p rest ih =>
      by_cases hp : p.1 = k'
      · simp [bucketFind?, hp]
      · simpa [bucketFind?, hp] using ih

lemma bucketGet_snd (b : Buckets) (k : Option String × Option String) (nm : String) :
    slotGet (bucketGet b k).2 nm = periodicSlot b k nm := by
  unfold bucketGet periodicSlot
  cases h : bucketFind? b k with
  | some m => rfl
  | none => simp [slotGet_initSlots]

lemma periodicSlot_bucketGet_fst (b : Buckets) (k0 k : Option String × Option String)
    (nm : String) : periodicSlot (bucketGet b k0).1 k nm = periodicSlot b k nm := by
  unfold bucketGet
  cases h : bucketFind? b k0 with
  | some m => rfl
  | none =>
      unfold periodicSlot
      rw [bucketFind?_append_single]
      cases hk : bucketFind? b k with
      | some m' => rfl
      | none =>
          by_cases hkk : k0 = k
          · rw [if_pos hkk]
            simp [slotGet_initSlots]
          · rw [if_neg hkk]

lemma bucketFind?_bucketGet_fst_self (b : Buckets) (k : Option String × Option String) :
    bucketFind? (bucketGet b k).1 k = some (bucketGet b k).2 := by
  unfold bucketGet
  cases h : bucketFind? b k with
  | some m => exact h
  | none =>
      rw [bucketFind?_append_single, h, if_pos rfl]

lemma bucketGet_fst_idem (b : Buckets) (k : Option String × Option String) :
    bucketGet (bucketGet b k).1 k = ((bucketGet b k).1, (bucketGet b k).2) := by
  unfold bucketGet
  cases h : bucketFind? b k with
  | some m =>
      show bucketGet b k = _
      unfold bucketGet
      rw [h]
  | none =>
      have hmat : bucketFind? (b ++ [(k, initSlots periodicKeys)]) k =
          some (initSlots periodicKeys) := by
        rw [bucketFind?_append_single, h, if_pos rfl]
      show bucketGet (b ++ [(k, initSlots periodicKeys)]) k = _
      unfold bucketGet
      rw [hmat]

lemma periodicSlot_bucketSet_self {b : Buckets} {k : Option String × Option String}
    (m : SlotMap) (h : (bucketFind? b k).isSome) (nm : String) :
    periodicSlot (bucketSet b k m) k nm = slotGet m nm := by
  induction b with
  | nil => cases h
  | cons p rest ih =>
      show periodicSlot (if p.1 = k then (p.1, m) :: bucketSet rest k m
        else p :: bucketSet rest k m) k nm = _
      by_cases hp : p.1 = k
      · rw [if_pos hp]
        unfold periodicSlot bucketFind?
        rw [if_pos hp]
      · rw [if_neg hp]
        have h2 : (bucketFind? rest k).isSome := by
          simpa [bucketFind?, hp] using h
        unfold periodicSlot bucketFind?
        rw [if_neg hp]
        exact ih h2

lemma periodicSlot_bucketSet_ne {b : Buckets} {k k' : Option String × Option String}
    (m : SlotMap) (h : k' ≠ k) (nm : String) :
    periodicSlot (bucketSet b k m) k' nm = periodicSlot b k' nm := by
  induction b with
  | nil => rfl
  | cons p rest ih =>
      show periodicSlot (if p.1 = k then (p.1, m) :: bucketSet rest k m
        else p :: bucketSet rest k m) k' nm = _
      by_cases hp : p.1 = k
      · have hne : ¬ p.1 = k' := fun hc => h (hc ▸ hp)
        rw [if_pos hp]
        unfold periodicSlot bucketFind?
        rw [if_neg hne, if_neg hne]
        exact ih
      · rw [if_neg hp]
        unfold periodicSlot bucketFind?
        by_cases hk' : p.1 = k'
        · rw [if_pos hk', if_pos hk']
        · rw [if_neg hk', if_neg hk']
          exact ih

/-! ## Handler case analyses -/

lemma handleGeneralLoop_cases {p : ValueParser} {name : String} {prio : Nat} :
    ∀ (l : List XmlNode) (g g' : SlotMap), handleGeneralLoop p name prio g l = .ok g' →
      g' = g ∨ ∃ v, g' = slotSet g name (prio, some v) := by
  intro l
  induction l with
  | nil =>
      intro g g' h
      simp only [handleGeneralLoop] at h
      exact Or.inl (Except.ok.inj h).symm
  | cons el rest ih =>
      intro g g' h
      simp only [handleGeneralLoop] at h
      cases hv : _parse el el.text p with
      | error err =>
          rw [hv, except_bind_error] at h
          cases h
      | ok vo =>
          rw [hv, except_bind_ok] at h
          cases vo with
          | some v =>
              simp only at h
              exact Or.inr ⟨v, (Except.ok.inj h).symm⟩
          | none =>
              simp only at h
              exact ih g g' h

lemma handle_general_cases {g : SlotMap} {e : XmlNode} {ln av cr : String} {ce : CandEntry}
    {g' : SlotMap} (h : handle_general g e ln av cr ce = .ok g') :
    g' = g ∨ (ce.prio ≤ (slotGet g ce.col).1 ∧ ∃ v, g' = slotSet g ce.col (ce.prio, some v)) := by
  unfold handle_general at h
  by_cases hp : ce.prio > (slotGet g ce.col).1
  · rw [if_pos hp] at h
    exact Or.inl (Except.ok.inj h).symm
  · rw [if_neg hp] at h
    rcases handleGeneralLoop_cases _ _ _ h with h1 | ⟨v, hv⟩
    · exact Or.inl h1
    · exact Or.inr ⟨Nat.le_of_not_lt hp, v, hv⟩

lemma handlePeriodicLoop_cases {p : ValueParser} {nm : String} {prio : Nat}
    {dates : Option String × Option String} :
    ∀ (l : List XmlNode) (b b' : Buckets), handlePeriodicLoop p nm prio dates b l = .ok b' →
      b' = b ∨ b' = (bucketGet b dates).1 ∨
        (prio < (periodicSlot b dates nm).1 ∧
          ∃ v, b' = bucketSet (bucketGet b dates).1 dates
            (slotSet (bucketGet b dates).2 nm (prio, some v))) := by
  intro l
  induction l with
  | nil =>
      intro b b' h
      simp only [handlePeriodicLoop] at h
      exact Or.inl (Except.ok.inj h).symm
  | cons el rest ih =>
      intro b b' h
      simp only [handlePeriodicLoop] at h
      by_cases hge : prio ≥ (slotGet (bucketGet b dates).2 nm).1
      · rw [if_pos hge] at h
        exact Or.inr (Or.inl (Except.ok.inj h).symm)
      · rw [if_neg hge] at h
        cases hv : _parse el el.text p with
        | error err =>
            rw [hv, except_bind_error] at h
            cases h
        | ok vo =>
            rw [hv, except_bind_ok] at h
            cases vo with
            | some v =>
                simp only at h
                refine Or.inr (Or.inr ⟨?_, v, (Except.ok.inj h).symm⟩)
                rw [← bucketGet_snd]
                exact Nat.lt_of_not_le hge
            | none =>
                simp only at h
                rcases ih _ _ h with h1 | h1 | ⟨hlt, v, hv'⟩
                · exact Or.inr (Or.inl h1)
                · rw [bucketGet_fst_idem] at h1
                  exact Or.inr (Or.inl h1)
                · rw [periodicSlot_bucketGet_fst] at hlt
                  rw [bucketGet_fst_idem] at hv'
                  exact Or.inr (Or.inr ⟨hlt, v, hv'⟩)

lemma handle_periodic_cases {ctx : ContextDict} {b : Buckets} {e : XmlNode} {ln av cr : String}
    {ce : CandEntry} {b' : Buckets} (h : handle_periodic ctx b e ln av cr ce = .ok b') :
    b' = b ∨ ∃ dates, ctxDictGet? ctx cr = some dates ∧
      (b' = (bucketGet b dates).1 ∨
        (ce.prio < (periodicSlot b dates ce.col).1 ∧
          ∃ v, b' = bucketSet (bucketGet b dates).1 dates
            (slotSet (bucketGet b dates).2 ce.col (ce.prio, some v)))) := by
  unfold handle_periodic at h
  by_cases hcr : cr = ""
  · rw [if_pos hcr] at h
    exact Or.inl (Except.ok.inj h).symm
  · rw [if_neg hcr] at h
    cases hctx : ctxDictGet? ctx cr with
    | none =>
        rw [hctx] at h
        cases h
    | some dates =>
        rw [hctx] at h
        rcases handlePeriodicLoop_cases _ _ _ h with h1 | h1 | h1
        · exact Or.inl h1
        · exact Or.inr ⟨dates, rfl, Or.inl h1⟩
        · exact Or.inr ⟨dates, rfl, Or.inr h1⟩

/-- The periodic slot view after a successful `handle_periodic` differs from
the one before only when the handler stored a strictly better value. -/
lemma handle_periodic_slot_change {ctx : ContextDict} {b : Buckets} {e : XmlNode}
    {ln av cr : String} {ce : CandEntry} {b' : Buckets}
    {k : Option String × Option String} {nm : String}
    (h : handle_periodic ctx b e ln av cr ce = .ok b')
    (hne : periodicSlot b' k nm ≠ periodicSlot b k nm) :
    ce.prio < (periodicSlot b k nm).1 ∧ ∃ v, periodicSlot b' k nm = (ce.prio, some v) := by
  rcases handle_periodic_cases h with h1 | ⟨dates, _, h1 | ⟨hlt, v, hv⟩⟩
  · exact absurd (by rw [h1]) hne
  · exact absurd (by rw [h1, periodicSlot_bucketGet_fst]) hne
  · by_cases hk : k = dates
    · subst hk
      by_cases hnm : nm = ce.col
      · rw [hnm] at hne ⊢
        by_cases hm : slotMem (bucketGet b k).2 ce.col
        · have hself : periodicSlot b' k ce.col = (ce.prio, some v) := by
            rw [hv, periodicSlot_bucketSet_self _
              (by rw [bucketFind?_bucketGet_fst_self]; rfl) ce.col]
            exact slotGet_slotSet_self _ hm
          exact ⟨hlt, v, hself⟩
        · have hnoop : slotSet (bucketGet b k).2 ce.col (ce.prio, some v) = (bucketGet b k).2 :=
            slotSet_of_not_mem _ (by simpa using hm)
          rw [hv, hnoop] at hne
          have heq : periodicSlot (bucketSet (bucketGet b k).1 k (bucketGet b k).2) k ce.col =
              periodicSlot b k ce.col := by
            rw [periodicSlot_bucketSet_self _
              (by rw [bucketFind?_bucketGet_fst_self]; rfl) ce.col]
            exact bucketGet_snd b k ce.col
          exact absurd heq hne
      · have heq : periodicSlot b' k nm = periodicSlot b k nm := by
          rw [hv, periodicSlot_bucketSet_self _
            (by rw [bucketFind?_bucketGet_fst_self]; rfl) nm,
            slotGet_slotSet_ne _ hnm]
          exact bucketGet_snd b k nm
        exact absurd heq hne
    · have heq : periodicSlot b' k nm = periodicSlot b k nm := by
        rw [hv, periodicSlot_bucketSet_ne _ hk nm, periodicSlot_bucketGet_fst]
      exact absurd heq hne

/-! ## C2 amended -/

/-- C2 amended: once a slot holds a value at priority p, a periodic slot is
replaced only by a candidate of priority strictly below p with a non-null
parsed value (ties never overwrite, conjunct two), but a general slot is
replaced by any candidate of priority less than OR EQUAL to p with a non-null
parsed value: an equal-priority general candidate whose first searched element
parses non-null does overwrite (conjuncts one and three). -/
theorem C2_slot_replacement_amended :
    (∀ (g : SlotMap) (e : XmlNode) (ln av cr : String) (ce : CandEntry) (g' : SlotMap),
        handle_general g e ln av cr ce = .ok g' →
        slotGet g' ce.col ≠ slotGet g ce.col →
        ce.prio ≤ (slotGet g ce.col).1 ∧ ∃ v, slotGet g' ce.col = (ce.prio, some v)) ∧
    (∀ (ctx : ContextDict) (b : Buckets) (e : XmlNode) (ln av cr : String) (ce : CandEntry)
        (b' : Buckets) (k : Option String × Option String) (nm : String),
        handle_periodic ctx b e ln av cr ce = .ok b' →
        periodicSlot b' k nm ≠ periodicSlot b k nm →
        ce.prio < (periodicSlot b k nm).1 ∧ ∃ v, periodicSlot b' k nm = (ce.prio, some v)) ∧
    (∀ (g : SlotMap) (e : XmlNode) (ln av cr : String) (ce : CandEntry) (v : Value),
        ce.test.search e ln av cr = [e] →
        _parse e e.text ce.parse = .ok (some v) →
        ce.prio = (slotGet g ce.col).1 →
        handle_general g e ln av cr ce = .ok (slotSet g ce.col (ce.prio, some v))) := by
  refine ⟨?_, ?_, ?_⟩
  · intro g e ln av cr ce g' h hne
    rcases handle_general_cases h with h1 | ⟨hle, v, hv⟩
    · exact absurd (by rw [h1]) hne
    · by_cases hm : slotMem g ce.col
      · exact ⟨hle, v, by rw [hv]; exact slotGet_slotSet_self _ hm⟩
      · have : g' = g := by
          rw [hv]
          exact slotSet_of_not_mem _ (by simpa using hm)
        exact absurd (by rw [this]) hne
  · intro ctx b e ln av cr ce b' k nm h hne
    exact handle_periodic_slot_change h hne
  · intro g e ln av cr ce v hsearch hparse hprio
    unfold handle_general
    rw [if_neg (by rw [← hprio]; exact Nat.lt_irrefl ce.prio), hsearch]
    simp only [handleGeneralLoop, hparse, except_bind_ok]

/-- Concrete state used by the C2 witness: the general map after the first
CompaniesHouseRegisteredNumber element. -/
def g1C2 : SlotMap :=
  slotSet (initSlots generalKeys) "companies_house_registered_number"
    (1, some (.str "11111111"))

def ceCHRN : CandEntry :=
  ⟨"companies_house_registered_number", 1, _tn "CompaniesHouseRegisteredNumber", _parse_str⟩

def e1C2 : XmlNode :=
  ⟨"CompaniesHouseRegisteredNumber", [], some "11111111", []⟩

def e2C2 : XmlNode :=
  ⟨"CompaniesHouseRegisteredNumber", [], some "22222222", []⟩

def d0C2 : Option String × Option String :=
  (some "2022-12-31", some "2022-12-31")

def ctx0C2 : ContextDict :=
  [(some "c1", d0C2)]

def ceFA : CandEntry :=
  ⟨"tangible_fixed_assets", 0, _tn "FixedAssets", _parse_decimal⟩

def eFAC2 : XmlNode :=
  ⟨"FixedAssets", [("contextRef", "c1")], some "5", []⟩

/-- Bucket state holding tangible_fixed_assets at priority 3 before the
witness candidate runs. -/
def b0C2 : Buckets :=
  [(d0C2, slotSet (initSlots periodicKeys) "tangible_fixed_assets" (3, some (.dec ⟨9, 0⟩)))]

def b1C2 : Buckets :=
  bucketSet b0C2 d0C2
    (slotSet (slotSet (initSlots periodicKeys) "tangible_fixed_assets" (3, some (.dec ⟨9, 0⟩)))
      "tangible_fixed_assets" (0, some (.dec ⟨5, 0⟩)))

set_option maxRecDepth 4000 in
/-- C2 witness: a general replacement at equal priority, a periodic
replacement at strictly better priority, and the equal-priority general
overwrite itself, all at concrete inputs. -/
theorem C2_slot_replacement_amended_witness :
    (1 ≤ (slotGet (initSlots generalKeys) "companies_house_registered_number").1 ∧
      ∃ v, slotGet g1C2 "companies_house_registered_number" = (1, some v)) ∧
    ((0 : Nat) < (periodicSlot b0C2 d0C2 "tangible_fixed_assets").1 ∧
      ∃ v, periodicSlot b1C2 d0C2 "tangible_fixed_assets" = (0, some v)) ∧
    handle_general g1C2 e2C2 "CompaniesHouseRegisteredNumber" "" "" ceCHRN =
      .ok (slotSet g1C2 "companies_house_registered_number" (1, some (.str "22222222"))) := by
  refine ⟨?_, ?_, ?_⟩
  · exact C2_slot_replacement_amended.1 (initSlots generalKeys) e1C2
      "CompaniesHouseRegisteredNumber" "" "" ceCHRN g1C2 (by rfl) (by decide)
  · exact C2_slot_replacement_amended.2.1 ctx0C2 b0C2 eFAC2 "FixedAssets" "" "c1" ceFA b1C2
      d0C2 "tangible_fixed_assets" (by rfl) (by decide)
  · exact C2_slot_replacement_amended.2.2 g1C2 e2C2 "CompaniesHouseRegisteredNumber" "" ""
      ceCHRN (.str "22222222") (by rfl) (by rfl) (by decide)

/-! ## Sorting lemmas -/

lemma datePairLeB_total (a b : PyDate × PyDate) :
    datePairLeB a b = true ∨ datePairLeB b a = true := by
  obtain ⟨⟨y1, m1, d1⟩, ⟨y2, m2, d2⟩⟩ := a
  obtain ⟨⟨y3, m3, d3⟩, ⟨y4, m4, d4⟩⟩ := b
  simp only [datePairLeB, dateLtB, dateLeB, Bool.or_eq_true, Bool.and_eq_true,
    decide_eq_true_eq, PyDate.mk.injEq]
  omega

lemma datePairLeB_trans {a b c : PyDate × PyDate} (h1 : datePairLeB a b = true)
    (h2 : datePairLeB b c = true) : datePairLeB a c = true := by
  obtain ⟨⟨y1, m1, d1⟩, ⟨y2, m2, d2⟩⟩ := a
  obtain ⟨⟨y3, m3, d3⟩, ⟨y4, m4, d4⟩⟩ := b
  obtain ⟨⟨y5, m5, d5⟩, ⟨y6, m6, d6⟩⟩ := c
  simp only [datePairLeB, dateLtB, dateLeB, Bool.or_eq_true, Bool.and_eq_true,
    decide_eq_true_eq, PyDate.mk.injEq] at h1 h2 ⊢
  omega

lemma mem_insertStable {le : α → α → Bool} (x : α) :
    ∀ (l : List α) (a : α), a ∈ insertStable le x l ↔ a = x ∨ a ∈ l := by
  intro l
  induction l with
  | nil =>
      intro a
      simp [insertStable]
  | cons y ys ih =>
      intro a
      by_cases h : le x y = true
      · simp [insertStable, h]
      · show a ∈ (if le x y then x :: y :: ys else y :: insertStable le x ys) ↔ _
        rw [if_neg h]
        simp only [List.mem_cons, ih a]
        tauto

lemma length_insertStable {le : α → α → Bool} (x : α) :
    ∀ l : List α, (insertStable le x l).length = l.length + 1 := by
  intro l
  induction l with
  | nil => rfl
  | cons y ys ih =>
      by_cases h : le x y = true
      · simp [insertStable, h]
      · simp [insertStable, h, ih]

lemma mem_pySorted {le : α → α → Bool} :
    ∀ (l : List α) (a : α), a ∈ pySorted le l ↔ a ∈ l := by
  intro l
  induction l with
  | nil => intro a; simp [pySorted]
  | cons y ys ih =>
      intro a
      simp only [pySorted, mem_insertStable, List.mem_cons, ih a]

lemma length_pySorted {le : α → α → Bool} :
    ∀ l : List α, (pySorted le l).length = l.length := by
  intro l
  induction l with
  | nil => rfl
  | cons y ys ih => simp [pySorted, length_insertStable, ih]

lemma pairwise_insertStable {le : α → α → Bool}
    (htot : ∀ a b, le a b = true ∨ le b a = true)
    (htrans : ∀ a b c, le a b = true → le b c = true → le a c = true) (x : α) :
    ∀ l : List α, List.Pairwise (fun a b => le a b = true) l →
      List.Pairwise (fun a b => le a b = true) (insertStable le x l) := by
  intro l
  induction l with
  | nil =>
      intro _
      simp [insertStable]
  | cons y ys ih =>
      intro hp
      rcases List.pairwise_cons.mp hp with ⟨hy, hys⟩
      by_cases hxy : le x y = true
      · show List.Pairwise _ (if le x y then x :: y :: ys else y :: insertStable le x ys)
        rw [if_pos hxy]
        refine List.pairwise_cons.mpr ⟨?_, hp⟩
        intro z hz
        rcases List.mem_cons.mp hz with rfl | hz'
        · exact hxy
        · exact htrans x y z hxy (hy z hz')
      · show List.Pairwise _ (if le x y then x :: y :: ys else y :: insertStable le x ys)
        rw [if_neg hxy]
        have hyx : le y x = true := (htot x y).resolve_left hxy
        refine List.pairwise_cons.mpr ⟨?_, ih hys⟩
        intro z hz
        rcases (mem_insertStable x ys z).mp hz with rfl | hz'
        · exact hyx
        · exact hy z hz'

lemma pairwise_pySorted {le : α → α → Bool}
    (htot : ∀ a b, le a b = true ∨ le b a = true)
    (htrans : ∀ a b c, le a b = true → le b c = true → le a c = true) :
    ∀ l : List α, List.Pairwise (fun a b => le a b = true) (pySorted le l) := by
  intro l
  induction l with
  | nil => simp [pySorted]
  | cons y ys ih => exact pairwise_insertStable htot htrans y _ ih

/-! ## mapM lemmas -/

lemma mapM_ok_length {α β : Type} {f : α → Except PyError β} :
    ∀ (l : List α) (l' : List β), l.mapM f = .ok l' → l'.length = l.length := by
  intro l
  induction l with
  | nil =>
      intro l' h
      rw [List.mapM_nil] at h
      cases (Except.ok.inj h)
      rfl
  | cons a t ih =>
      intro l' h
      rw [List.mapM_cons] at h
      cases hfa : f a with
      | error err => rw [hfa, except_bind_error] at h; cases h
      | ok b =>
          rw [hfa, except_bind_ok] at h
          cases hmt : List.mapM f t with
          | error err => rw [hmt, except_bind_error] at h; cases h
          | ok bs =>
              rw [hmt, except_bind_ok] at h
              cases (Except.ok.inj h)
              simp only [List.length_cons, ih bs hmt]

lemma mapM_ok_forall {α β : Type} {f : α → Except PyError β} :
    ∀ (l : List α) (l' : List β), l.mapM f = .ok l' →
      ∀ b ∈ l', ∃ a ∈ l, f a = .ok b := by
  intro l
  induction l with
  | nil =>
      intro l' h b hb
      rw [List.mapM_nil] at h
      cases (Except.ok.inj h)
      cases hb
  | cons a t ih =>
      intro l' h b hb
      rw [List.mapM_cons] at h
      cases hfa : f a with
      | error err => rw [hfa, except_bind_error] at h; cases h
      | ok b0 =>
          rw [hfa, except_bind_ok] at h
          cases hmt : List.mapM f t with
          | error err => rw [hmt, except_bind_error] at h; cases h
          | ok bs =>
              rw [hmt, except_bind_ok] at h
              cases (Except.ok.inj h)
              rcases List.mem_cons.mp hb with rfl | hb'
              · exact ⟨a, List.mem_cons_self a t, hfa⟩
              · rcases ih bs hmt b hb' with ⟨a', ha', hfa'⟩
                exact ⟨a', List.mem_cons_of_mem a ha', hfa'⟩

lemma mapM_ok_mem {α β : Type} {f : α → Except PyError β} :
    ∀ (l : List α) (l' : List β), l.mapM f = .ok l' →
      ∀ a ∈ l, ∃ b ∈ l', f a = .ok b := by
  intro l
  induction l with
  | nil =>
      intro l' h a ha
      cases ha
  | cons a0 t ih =>
      intro l' h a ha
      rw [List.mapM_cons] at h
      cases hfa : f a0 with
      | error err => rw [hfa, except_bind_error] at h; cases h
      | ok b0 =>
          rw [hfa, except_bind_ok] at h
          cases hmt : List.mapM f t with
          | error err => rw [hmt, except_bind_error] at h; cases h
          | ok bs =>
              rw [hmt, except_bind_ok] at h
              cases (Except.ok.inj h)
              rcases List.mem_cons.mp ha with rfl | ha'
              · exact ⟨b0, List.mem_cons_self b0 bs, hfa⟩
              · rcases ih bs hmt a ha' with ⟨b, hb, hfb⟩
                exact ⟨b, List.mem_cons_of_mem b0 hb, hfb⟩

lemma filterMap_all_some {α β : Type} (f : α → β) :
    ∀ l : List α, List.filterMap (fun a => some (f a)) l = l.map f := by
  intro l
  induction l with
  | nil => rfl
  | cons a t ih => simp [List.filterMap_cons, ih]

/-! ## Assembly lemmas -/

lemma periodOf_ok {p : (Option String × Option String) × SlotMap} {pt : PeriodTuple}
    (h : periodOf p = .ok pt) :
    ∃ s e, isoOrError p.1.1 = .ok s ∧ isoOrError p.1.2 = .ok e ∧
      pt = ((s, e), periodicKeys.map (fun nm => (slotGet p.2 nm).2)) := by
  unfold periodOf at h
  cases hs : isoOrError p.1.1 with
  | error err => rw [hs, except_bind_error] at h; cases h
  | ok s =>
      rw [hs, except_bind_ok] at h
      cases he : isoOrError p.1.2 with
      | error err => rw [he, except_bind_error] at h; cases h
      | ok e =>
          rw [he, except_bind_ok] at h
          exact ⟨s, e, rfl, rfl, (Except.ok.inj h).symm⟩

/-- The period key of an emitted row: the two date cells after the ten
core and general cells. -/
def rowPeriodKey (r : Row) : Option (PyDate × PyDate) :=
  match r.drop 10 with
  | some (.date s) :: some (.date e) :: _ => some (s, e)
  | _ => none

lemma rowPeriodKey_of_prefix10 {l1 : List (Option Value)} (tail : List (Option Value))
    (h : l1.length = 10) :
    rowPeriodKey (l1 ++ tail) =
      (match tail with
       | some (.date s) :: some (.date e) :: _ => some (s, e)
       | _ => none) := by
  show (match (l1 ++ tail).drop 10 with
    | some (Value.date s) :: some (Value.date e) :: _ => some (s, e)
    | _ => none) = _
  rw [← h, List.drop_left]

lemma periodicKeys_length : periodicKeys.length = 25 := by
  rfl

lemma assembleRows_shape {core general : List (Option Value)} {buckets : Buckets}
    {rows : List Row} (hc : core.length = 5) (hg : general.length = 5)
    (h : assembleRows core general buckets = .ok rows) :
    rows ≠ [] ∧
    (buckets = [] → rows = [core ++ general ++ List.replicate 27 none]) ∧
    (buckets ≠ [] → rows.length = buckets.length ∧ ∀ r ∈ rows, ∃ s e vals,
        r = core ++ general ++ (some (.date s) :: some (.date e) :: vals) ∧
        vals.length = 25) ∧
    (∀ r ∈ rows, r.length = 37) := by
  unfold assembleRows at h
  cases hm : buckets.mapM periodOf with
  | error err => rw [hm, except_bind_error] at h; cases h
  | ok periods =>
      rw [hm, except_bind_ok] at h
      simp only at h
      cases hs : pySorted descOrder periods with
      | nil =>
          rw [hs] at h
          have hrows : rows = [core ++ general ++ List.replicate 27 none] :=
            (Except.ok.inj h).symm
          have hlen : ∀ r ∈ rows, r.length = 37 := by
            intro r hr
            rw [hrows] at hr
            rcases List.mem_singleton.mp hr with rfl
            simp [List.length_append, hc, hg]
          have hper : periods = [] := by
            have hl := @length_pySorted _ descOrder periods
            rw [hs] at hl
            exact List.length_eq_zero.mp hl.symm
          have hbuck : buckets = [] := by
            have hl := mapM_ok_length buckets periods hm
            rw [hper] at hl
            exact List.length_eq_zero.mp hl.symm
          refine ⟨by rw [hrows]; simp, fun _ => hrows, fun hb => absurd hbuck hb, hlen⟩
      | cons q qs =>
          rw [hs] at h
          have hrows : rows = (q :: qs).map (fun p =>
              core ++ general ++ ([some (.date p.1.1), some (.date p.1.2)] ++ p.2)) :=
            (Except.ok.inj h).symm
          have hmemshape : ∀ r ∈ rows, ∃ s e vals,
              r = core ++ general ++ (some (.date s) :: some (.date e) :: vals) ∧
              vals.length = 25 := by
            intro r hr
            rw [hrows] at hr
            rcases List.mem_map.mp hr with ⟨pt, hpt, rfl⟩
            have hpt' : pt ∈ periods := by
              have hmem := (@mem_pySorted _ descOrder periods pt)
              rw [hs] at hmem
              exact hmem.mp hpt
            rcases mapM_ok_forall buckets periods hm pt hpt' with ⟨bk, _, hbk⟩
            rcases periodOf_ok hbk with ⟨s, e, _, _, hpteq⟩
            refine ⟨pt.1.1, pt.1.2, pt.2, rfl, ?_⟩
            rw [hpteq]
            show (periodicKeys.map fun nm => (slotGet bk.2 nm).2).length = 25
            rw [List.length_map]
            exact periodicKeys_length
          have hne : rows ≠ [] := by
            rw [hrows]
            simp
          have hlen37 : ∀ r ∈ rows, r.length = 37 := by
            intro r hr
            rcases hmemshape r hr with ⟨s, e, vals, rfl, hv⟩
            simp [List.length_append, hc, hg, hv]
          refine ⟨hne, ?_, fun _ => ⟨?_, hmemshape⟩, hlen37⟩
          · intro hb
            rw [hb, List.mapM_nil] at hm
            have hper : periods = [] := (Except.ok.inj hm).symm
            rw [hper] at hs
            cases hs
          · have h1 : rows.length = (q :: qs).length := by rw [hrows, List.length_map]
            have h2 : (q :: qs).length = periods.length := by
              rw [← hs]
              exact length_pySorted periods
            have h3 : periods.length = buckets.length := mapM_ok_length buckets periods hm
            omega

lemma descOrder_total (a b : PeriodTuple) : descOrder a b = true ∨ descOrder b a = true :=
  datePairLeB_total b.1 a.1

lemma descOrder_trans (a b c : PeriodTuple) (h1 : descOrder a b = true)
    (h2 : descOrder b c = true) : descOrder a c = true :=
  datePairLeB_trans h2 h1

lemma assembleRows_sorted {core general : List (Option Value)} {buckets : Buckets}
    {rows : List Row} (hc : core.length = 5) (hg : general.length = 5)
    (h : assembleRows core general buckets = .ok rows) :
    List.Pairwise (fun a b => datePairLeB b a = true) (rows.filterMap rowPeriodKey) := by
  have hcg : (core ++ general).length = 10 := by
    rw [List.length_append, hc, hg]
  unfold assembleRows at h
  cases hm : buckets.mapM periodOf with
  | error err => rw [hm, except_bind_error] at h; cases h
  | ok periods =>
      rw [hm, except_bind_ok] at h
      simp only at h
      cases hs : pySorted descOrder periods with
      | nil =>
          rw [hs] at h
          have hrows : rows = [core ++ general ++ List.replicate 27 none] :=
            (Except.ok.inj h).symm
          have hkey : rowPeriodKey (core ++ general ++ List.replicate 27 none) = none := by
            rw [rowPeriodKey_of_prefix10 _ hcg]
            rfl
          have hfm : List.filterMap rowPeriodKey
              [core ++ general ++ List.replicate 27 none] = [] := by
            rw [List.filterMap_cons, hkey]
            rfl
          rw [hrows, hfm]
          exact List.Pairwise.nil
      | cons q qs =>
          rw [hs] at h
          have hrows : rows = (q :: qs).map (fun p =>
              core ++ general ++ ([some (.date p.1.1), some (.date p.1.2)] ++ p.2)) :=
            (Except.ok.inj h).symm
          have hkey : ∀ pt : PeriodTuple,
              rowPeriodKey (core ++ general ++
                ([some (.date pt.1.1), some (.date pt.1.2)] ++ pt.2)) = some pt.1 := by
            intro pt
            rw [rowPeriodKey_of_prefix10 _ hcg]
            rfl
          rw [hrows, List.filterMap_map]
          have hfm : (rowPeriodKey ∘ fun p : PeriodTuple =>
              core ++ general ++ ([some (.date p.1.1), some (.date p.1.2)] ++ p.2)) =
              fun pt : PeriodTuple => some pt.1 := by
            funext pt
            exact hkey pt
          rw [hfm, filterMap_all_some]
          rw [List.pairwise_map]
          have hp := pairwise_pySorted descOrder_total descOrder_trans periods
          rw [hs] at hp
          exact hp

/-- Successful extraction splits into its stages: context index, filename
match, core date, traversal, and assembly. -/
lemma xbrl_ok_destruct {name : String} {doc : XmlDoc} {rows : List Row}
    (h : _xbrl_to_rows name doc = .ok rows) :
    ∃ ctx groups d st,
      buildContextDates doc.root = .ok ctx ∧
      matchFilename? (pyBasename name) = some groups ∧
      parseDateutil? groups.2.2.1 = some d ∧
      runTraversal ctx doc.root = .ok st ∧
      assembleRows
        [some (.str groups.1), some (.str groups.2.1), some (.date d),
          some (.str groups.2.2.2), some (.str (taxonomyOf doc.nsValues))]
        (generalKeys.map (fun k => (slotGet st.general k).2)) st.buckets = .ok rows := by
  unfold _xbrl_to_rows at h
  cases hctx : buildContextDates doc.root with
  | error e =>
      rw [hctx, except_bind_error] at h
      cases h
  | ok ctx =>
      rw [hctx, except_bind_ok] at h
      cases hmf : matchFilename? (pyBasename name) with
      | none =>
          simp only [hmf] at h
          rw [except_bind_error] at h
          cases h
      | some g =>
          simp only [hmf] at h
          rw [except_bind_ok] at h
          cases hd : parseDateutil? g.2.2.1 with
          | none =>
              simp only [hd] at h
              rw [except_bind_error] at h
              cases h
          | some d =>
              simp only [hd] at h
              rw [except_bind_ok] at h
              cases hrun : runTraversal ctx doc.root with
              | error e =>
                  rw [hrun, except_bind_error] at h
                  cases h
              | ok st =>
                  rw [hrun, except_bind_ok] at h
                  exact ⟨ctx, g, d, st, rfl, rfl, hd, hrun, h⟩

/-! ## C6 -/

/-- C6: when at least one periodic bucket exists, the assembler emits one row
per bucket of the form core plus general plus period start, period end, and
the 25 periodic values; with no bucket it emits exactly the single row of core
plus general plus 27 nulls; every emitted row has exactly 37 cells, and a
successful extraction is never empty. -/
theorem C6_row_shape :
    (∀ (core general : List (Option Value)) (buckets : Buckets) (rows : List Row),
        core.length = 5 → general.length = 5 → assembleRows core general buckets = .ok rows →
        (buckets = [] → rows = [core ++ general ++ List.replicate 27 none]) ∧
        (buckets ≠ [] → rows.length = buckets.length ∧ ∀ r ∈ rows, ∃ s e vals,
            r = core ++ general ++ (some (.date s) :: some (.date e) :: vals) ∧
            vals.length = 25) ∧
        (∀ r ∈ rows, r.length = 37)) ∧
    (∀ (name : String) (doc : XmlDoc) (rows : List Row),
        _xbrl_to_rows name doc = .ok rows → rows ≠ [] ∧ ∀ r ∈ rows, r.length = 37) := by
  constructor
  · intro core general buckets rows hc hg h
    rcases assembleRows_shape hc hg h with ⟨_, h1, h2, h3⟩
    exact ⟨h1, h2, h3⟩
  · intro name doc rows h
    rcases xbrl_ok_destruct h with ⟨ctx, g, d, st, _, _, _, _, hasm⟩
    have hg5 : (generalKeys.map (fun k => (slotGet st.general k).2)).length = 5 := by
      rw [List.length_map]
      rfl
    rcases assembleRows_shape (by rfl) hg5 hasm with ⟨hne, _, _, h37⟩
    exact ⟨hne, h37⟩

/-- The single row the extractor emits for `docPlain`. -/
def rowsPlain : List Row :=
  [[some (.str "Prod1_1"), some (.str "X"), some (.date ⟨2022, 1, 1⟩), some (.str "xml"),
    some (.str "")] ++ List.replicate 5 none ++ List.replicate 27 none]

set_option maxRecDepth 10000 in
/-- C6 witness: the bucket-free document yields exactly the single 37-cell
row. -/
theorem C6_row_shape_witness :
    _xbrl_to_rows "Prod1_1_X_20220101.xml" docPlain = .ok rowsPlain ∧
    (rowsPlain ≠ [] ∧ ∀ r ∈ rowsPlain, r.length = 37) := by
  constructor
  · rfl
  · exact C6_row_shape.2 "Prod1_1_X_20220101.xml" docPlain rowsPlain (by rfl)

/-! ## C7 -/

/-- C7: the periodic rows of a successful extraction are sorted descending on
the pair of period start and period end dates, so of any two rows the newer
period comes first. -/
theorem C7_rows_sorted_descending :
    ∀ (name : String) (doc : XmlDoc) (rows : List Row),
      _xbrl_to_rows name doc = .ok rows →
      List.Pairwise (fun a b => datePairLeB b a = true) (rows.filterMap rowPeriodKey) := by
  intro name doc rows h
  rcases xbrl_ok_destruct h with ⟨ctx, g, d, st, _, _, _, _, hasm⟩
  have hg5 : (generalKeys.map (fun k => (slotGet st.general k).2)).length = 5 := by
    rw [List.length_map]
    rfl
  exact assembleRows_sorted (by rfl) hg5 hasm

/-- Two instant contexts and two facts, the newer context declared second. -/
def docTwoPeriods : XmlDoc :=
  ⟨⟨"xbrl", [], none,
    [ ⟨"context", [("id", "c1")], none,
        [⟨"period", [], none, [⟨"instant", [], some "2021-12-31", []⟩]⟩]⟩,
      ⟨"context", [("id", "c2")], none,
        [⟨"period", [], none, [⟨"instant", [], some "2022-12-31", []⟩]⟩]⟩,
      ⟨"CashBankInHand", [("contextRef", "c1")], some "118470", []⟩,
      ⟨"CashBankInHand", [("contextRef", "c2")], some "214222", []⟩ ]⟩, []⟩

/-- The two rows the extractor emits for `docTwoPeriods`, newest period
first. -/
def rowsTwoPeriods : List Row :=
  [ [some (.str "Prod1_1"), some (.str "X"), some (.date ⟨2022, 1, 1⟩), some (.str "xml"),
      some (.str "")] ++ List.replicate 5 none ++
      ([some (.date ⟨2022, 12, 31⟩), some (.date ⟨2022, 12, 31⟩), none, none,
        some (.dec ⟨214222, 0⟩)] ++ List.replicate 22 none),
    [some (.str "Prod1_1"), some (.str "X"), some (.date ⟨2022, 1, 1⟩), some (.str "xml"),
      some (.str "")] ++ List.replicate 5 none ++
      ([some (.date ⟨2021, 12, 31⟩), some (.date ⟨2021, 12, 31⟩), none, none,
        some (.dec ⟨118470, 0⟩)] ++ List.replicate 22 none) ]

set_option maxRecDepth 10000 in
/-- C7 witness: a concrete document with two periods, emitted newest first and
pairwise sorted descending. -/
theorem C7_rows_sorted_descending_witness :
    _xbrl_to_rows "Prod1_1_X_20220101.xml" docTwoPeriods = .ok rowsTwoPeriods ∧
    List.Pairwise (fun a b => datePairLeB b a = true)
      (rowsTwoPeriods.filterMap rowPeriodKey) := by
  constructor
  · rfl
  · exact C7_rows_sorted_descending "Prod1_1_X_20220101.xml" docTwoPeriods rowsTwoPeriods
      (by rfl)

/-! ## Traversal invariants -/

lemma foldlM_ok_invariant {σ α : Type} {f : σ → α → Except PyError σ} {P : σ → Prop}
    (hstep : ∀ s a s', f s a = .ok s' → P s → P s') :
    ∀ (l : List α) (s0 s1 : σ), List.foldlM f s0 l = .ok s1 → P s0 → P s1 := by
  intro l
  induction l with
  | nil =>
      intro s0 s1 h hp
      rw [List.foldlM_nil] at h
      rw [← (Except.ok.inj h)]
      exact hp
  | cons a t ih =>
      intro s0 s1 h hp
      rw [List.foldlM_cons] at h
      cases hf : f s0 a with
      | error e => rw [hf, except_bind_error] at h; cases h
      | ok s' =>
          rw [hf, except_bind_ok] at h
          exact ih s' s1 h (hstep s0 a s' hf hp)

lemma foldlM_ok_split {σ α : Type} {f : σ → α → Except PyError σ} :
    ∀ (l1 : List α) (x : α) (l2 : List α) (s0 s : σ),
      List.foldlM f s0 (l1 ++ x :: l2) = .ok s →
      ∃ s1 s2, List.foldlM f s0 l1 = .ok s1 ∧ f s1 x = .ok s2 ∧
        List.foldlM f s2 l2 = .ok s := by
  intro l1
  induction l1 with
  | nil =>
      intro x l2 s0 s h
      rw [List.nil_append, List.foldlM_cons] at h
      cases hf : f s0 x with
      | error e => rw [hf, except_bind_error] at h; cases h
      | ok s2 =>
          rw [hf, except_bind_ok] at h
          exact ⟨s0, s2, rfl, hf, h⟩
  | cons a t ih =>
      intro x l2 s0 s h
      rw [List.cons_append, List.foldlM_cons] at h
      cases hf : f s0 a with
      | error e => rw [hf, except_bind_error] at h; cases h
      | ok s' =>
          rw [hf, except_bind_ok] at h
          rcases ih x l2 s' s h with ⟨s1, s2, h1, h2, h3⟩
          refine ⟨s1, s2, ?_, h2, h3⟩
          rw [List.foldlM_cons, hf, except_bind_ok]
          exact h1

lemma slotMem_iff : ∀ (g : SlotMap) (k : String), slotMem g k = true ↔ k ∈ g.map Prod.fst := by
  intro g k
  induction g with
  | nil => simp [slotMem]
  | cons p rest ih =>
      simp only [slotMem, Bool.or_eq_true, decide_eq_true_eq, List.map_cons, List.mem_cons, ih]
      exact ⟨fun h => h.imp Eq.symm id, fun h => h.imp Eq.symm id⟩

lemma slotSet_map_fst (g : SlotMap) (k : String) (s : Slot) :
    (slotSet g k s).map Prod.fst = g.map Prod.fst := by
  induction g with
  | nil => rfl
  | cons p rest ih =>
      show (if p.1 = k then (p.1, s) :: slotSet rest k s
        else p :: slotSet rest k s).map Prod.fst = _
      by_cases hp : p.1 = k
      · rw [if_pos hp]
        show (p.1 :: (slotSet rest k s).map Prod.fst) = p.1 :: rest.map Prod.fst
        rw [ih]
      · rw [if_neg hp]
        show (p.1 :: (slotSet rest k s).map Prod.fst) = p.1 :: rest.map Prod.fst
        rw [ih]

lemma initSlots_map_fst (ks : List String) : (initSlots ks).map Prod.fst = ks := by
  induction ks with
  | nil => rfl
  | cons a t ih => simp [initSlots] at ih ⊢; exact ih

/-- The general slot map keeps exactly the general keys throughout the
traversal. -/
def generalKeysInv (st : ExtState) : Prop :=
  st.general.map Prod.fst = generalKeys

lemma bucketFind?_isSome_bucketGet_fst {b : Buckets} {k : Option String × Option String}
    (k0 : Option String × Option String) (h : (bucketFind? b k).isSome) :
    (bucketFind? (bucketGet b k0).1 k).isSome := by
  unfold bucketGet
  cases hf : bucketFind? b k0 with
  | some m => exact h
  | none =>
      rw [bucketFind?_append_single]
      cases hk : bucketFind? b k with
      | some m' => rfl
      | none => rw [hk] at h; cases h

lemma bucketFind?_isSome_bucketSet {k0 : Option String × Option String} (m : SlotMap) :
    ∀ (b : Buckets) (k : Option String × Option String),
      (bucketFind? (bucketSet b k0 m) k).isSome = (bucketFind? b k).isSome := by
  intro b
  induction b with
  | nil => intro k; rfl
  | cons p rest ih =>
      intro k
      show (bucketFind? (if p.1 = k0 then (p.1, m) :: bucketSet rest k0 m
        else p :: bucketSet rest k0 m) k).isSome = _
      by_cases hp : p.1 = k0
      · rw [if_pos hp]
        show (if p.1 = k then some m else bucketFind? (bucketSet rest k0 m) k).isSome =
          (if p.1 = k then some p.2 else bucketFind? rest k).isSome
        by_cases hk : p.1 = k
        · rw [if_pos hk, if_pos hk]
          rfl
        · rw [if_neg hk, if_neg hk, ih k]
      · rw [if_neg hp]
        show (if p.1 = k then some p.2 else bucketFind? (bucketSet rest k0 m) k).isSome =
          (if p.1 = k then some p.2 else bucketFind? rest k).isSome
        by_cases hk : p.1 = k
        · rw [if_pos hk, if_pos hk]
        · rw [if_neg hk, if_neg hk, ih k]

lemma bucketFind?_mem : ∀ {b : Buckets} {k : Option String × Option String} {m : SlotMap},
    bucketFind? b k = some m → (k, m) ∈ b := by
  intro b
  induction b with
  | nil => intro k m h; cases h
  | cons p rest ih =>
      intro k m h
      show (k, m) ∈ p :: rest
      by_cases hp : p.1 = k
      · have hm : some p.2 = some m := by
          rw [← h]
          show some p.2 = (if p.1 = k then some p.2 else bucketFind? rest k)
          rw [if_pos hp]
        have hpk : p = (k, m) := Prod.ext hp (Option.some.inj hm)
        exact List.mem_cons.mpr (Or.inl hpk.symm)
      · have h2 : bucketFind? rest k = some m := by
          rw [← h]
          show bucketFind? rest k = (if p.1 = k then some p.2 else bucketFind? rest k)
          rw [if_neg hp]
        exact List.mem_cons_of_mem p (ih h2)

lemma processCandidate_keys {ctx : ContextDict} {e : XmlNode} {ln av cr : String}
    {st : ExtState} {ce : CandEntry} {st' : ExtState}
    (h : processCandidate ctx e ln av cr st ce = .ok st') (hk : generalKeysInv st) :
    generalKeysInv st' := by
  unfold processCandidate at h
  by_cases hm : slotMem st.general ce.col = true
  · rw [if_pos hm] at h
    cases hg : handle_general st.general e ln av cr ce with
    | error err => rw [hg, except_bind_error] at h; cases h
    | ok g =>
        rw [hg, except_bind_ok] at h
        have hst' : st' = ⟨g, st.buckets⟩ := (Except.ok.inj h).symm
        rcases handle_general_cases hg with h1 | ⟨_, v, h1⟩
        · rw [hst']
          unfold generalKeysInv
          rw [h1]
          exact hk
        · rw [hst']
          unfold generalKeysInv
          rw [h1, slotSet_map_fst]
          exact hk
  · rw [if_neg hm] at h
    cases hb : handle_periodic ctx st.buckets e ln av cr ce with
    | error err => rw [hb, except_bind_error] at h; cases h
    | ok b =>
        rw [hb, except_bind_ok] at h
        have hst' : st' = ⟨st.general, b⟩ := (Except.ok.inj h).symm
        rw [hst']
        exact hk

lemma processCandidate_bucketKey {ctx : ContextDict} {e : XmlNode} {ln av cr : String}
    {st : ExtState} {ce : CandEntry} {st' : ExtState}
    {dkey : Option String × Option String}
    (h : processCandidate ctx e ln av cr st ce = .ok st')
    (hk : (bucketFind? st.buckets dkey).isSome) :
    (bucketFind? st'.buckets dkey).isSome := by
  unfold processCandidate at h
  by_cases hm : slotMem st.general ce.col = true
  · rw [if_pos hm] at h
    cases hg : handle_general st.general e ln av cr ce with
    | error err => rw [hg, except_bind_error] at h; cases h
    | ok g =>
        rw [hg, except_bind_ok] at h
        have hst' : st' = ⟨g, st.buckets⟩ := (Except.ok.inj h).symm
        rw [hst']
        exact hk
  · rw [if_neg hm] at h
    cases hb : handle_periodic ctx st.buckets e ln av cr ce with
    | error err => rw [hb, except_bind_error] at h; cases h
    | ok b =>
        rw [hb, except_bind_ok] at h
        have hst' : st' = ⟨st.general, b⟩ := (Except.ok.inj h).symm
        rw [hst']
        rcases handle_periodic_cases hb with h1 | ⟨dates, _, h1 | ⟨_, v, h1⟩⟩
        · rw [h1]
          exact hk
        · rw [h1]
          exact bucketFind?_isSome_bucketGet_fst dates hk
        · rw [h1, bucketFind?_isSome_bucketSet]
          exact bucketFind?_isSome_bucketGet_fst dates hk

lemma processElement_keys {ctx : ContextDict} {st : ExtState} {e : XmlNode} {st' : ExtState}
    (h : processElement ctx st e = .ok st') (hk : generalKeysInv st) : generalKeysInv st' := by
  unfold processElement at h
  exact foldlM_ok_invariant (fun s a s' hf hp => processCandidate_keys hf hp) _ st st' h hk

lemma processElement_bucketKey {ctx : ContextDict} {st : ExtState} {e : XmlNode}
    {st' : ExtState} {dkey : Option String × Option String}
    (h : processElement ctx st e = .ok st')
    (hk : (bucketFind? st.buckets dkey).isSome) : (bucketFind? st'.buckets dkey).isSome := by
  unfold processElement at h
  exact foldlM_ok_invariant (fun s a s' hf hp => processCandidate_bucketKey hf hp) _ st st' h hk

lemma handlePeriodicLoop_isSome {p : ValueParser} {nm : String} {prio : Nat}
    {dkey : Option String × Option String} (el : XmlNode) (rest : List XmlNode)
    (b b' : Buckets) (h : handlePeriodicLoop p nm prio dkey b (el :: rest) = .ok b') :
    (bucketFind? b' dkey).isSome := by
  simp only [handlePeriodicLoop] at h
  by_cases hge : prio ≥ (slotGet (bucketGet b dkey).2 nm).1
  · rw [if_pos hge] at h
    have hb' : b' = (bucketGet b dkey).1 := (Except.ok.inj h).symm
    rw [hb', bucketFind?_bucketGet_fst_self]
    rfl
  · rw [if_neg hge] at h
    cases hv : _parse el el.text p with
    | error err => rw [hv, except_bind_error] at h; cases h
    | ok vo =>
        rw [hv, except_bind_ok] at h
        cases vo with
        | some v =>
            simp only at h
            have hb' : b' = bucketSet (bucketGet b dkey).1 dkey
                (slotSet (bucketGet b dkey).2 nm (prio, some v)) := (Except.ok.inj h).symm
            rw [hb', bucketFind?_isSome_bucketSet, bucketFind?_bucketGet_fst_self]
            rfl
        | none =>
            simp only at h
            rcases handlePeriodicLoop_cases rest _ _ h with h1 | h1 | ⟨_, v, h1⟩
            · rw [h1, bucketFind?_bucketGet_fst_self]
              rfl
            · rw [h1, bucketGet_fst_idem, bucketFind?_bucketGet_fst_self]
              rfl
            · rw [h1, bucketGet_fst_idem, bucketFind?_isSome_bucketSet,
                bucketFind?_bucketGet_fst_self]
              rfl

/-- Processing an element that matches a periodic candidate with a nonempty
search result and a resolvable context reference leaves the corresponding
bucket key present, whatever values were parsed. -/
lemma processElement_materializes {ctx : ContextDict} {st : ExtState} {e : XmlNode}
    {st' : ExtState} {ce : CandEntry} {dkey : Option String × Option String}
    (h : processElement ctx st e = .ok st')
    (hk : generalKeysInv st)
    (hce : ce ∈ candidatesFor (localNameOf e) (nameSuffixOf e))
    (hcol : ¬ ce.col ∈ generalKeys)
    (hcr : contextRefOf e ≠ "")
    (hctx : ctxDictGet? ctx (contextRefOf e) = some dkey)
    (hsearch : ce.test.search e (localNameOf e) (nameSuffixOf e) (contextRefOf e) ≠ []) :
    (bucketFind? st'.buckets dkey).isSome := by
  unfold processElement at h
  rcases List.append_of_mem hce with ⟨l1, l2, hsplit⟩
  rw [hsplit] at h
  rcases foldlM_ok_split l1 ce l2 st st' h with ⟨s1, s2, h1, h2, h3⟩
  have hk1 : generalKeysInv s1 :=
    foldlM_ok_invariant (fun s a s' hf hp => processCandidate_keys hf hp) l1 st s1 h1 hk
  have hsome : (bucketFind? s2.buckets dkey).isSome := by
    unfold processCandidate at h2
    have hmem : ¬ slotMem s1.general ce.col = true := by
      intro hsm
      have := (slotMem_iff s1.general ce.col).mp hsm
      rw [hk1] at this
      exact hcol this
    rw [if_neg hmem] at h2
    cases hb : handle_periodic ctx s1.buckets e (localNameOf e) (nameSuffixOf e)
        (contextRefOf e) ce with
    | error err => rw [hb, except_bind_error] at h2; cases h2
    | ok b' =>
        rw [hb, except_bind_ok] at h2
        have hs2 : s2 = ⟨s1.general, b'⟩ := (Except.ok.inj h2).symm
        unfold handle_periodic at hb
        rw [if_neg hcr, hctx] at hb
        cases hse : ce.test.search e (localNameOf e) (nameSuffixOf e) (contextRefOf e) with
        | nil => exact absurd hse hsearch
        | cons el rest =>
            rw [hse] at hb
            have hres := handlePeriodicLoop_isSome el rest _ _ hb
            rw [hs2]
            exact hres
  exact foldlM_ok_invariant (fun s a s' hf hp => processCandidate_bucketKey hf hp)
    l2 s2 st' h3 hsome

/-- The traversal materializes the bucket of every periodic candidate hit
whose context resolves, and the key survives to the final state. -/
lemma runTraversal_materializes {ctx : ContextDict} {root : XmlNode} {st : ExtState}
    {e : XmlNode} {ce : CandEntry} {dkey : Option String × Option String}
    (h : runTraversal ctx root = .ok st)
    (he : e ∈ allElements root)
    (hce : ce ∈ candidatesFor (localNameOf e) (nameSuffixOf e))
    (hcol : ¬ ce.col ∈ generalKeys)
    (hcr : contextRefOf e ≠ "")
    (hctx : ctxDictGet? ctx (contextRefOf e) = some dkey)
    (hsearch : ce.test.search e (localNameOf e) (nameSuffixOf e) (contextRefOf e) ≠ []) :
    (bucketFind? st.buckets dkey).isSome := by
  unfold runTraversal at h
  rcases List.append_of_mem he with ⟨l1, l2, hsplit⟩
  rw [hsplit] at h
  rcases foldlM_ok_split l1 e l2 initExtState st h with ⟨s1, s2, h1, h2, h3⟩
  have hk1 : generalKeysInv s1 := by
    refine foldlM_ok_invariant (fun s a s' hf hp => processElement_keys hf hp) l1 _ s1 h1 ?_
    unfold generalKeysInv initExtState
    exact initSlots_map_fst generalKeys
  have hsome := processElement_materializes h2 hk1 hce hcol hcr hctx hsearch
  exact foldlM_ok_invariant (fun s a s' hf hp => processElement_bucketKey hf hp)
    l2 s2 st h3 hsome

/-- A bucket key present at assembly time yields an output row carrying its
parsed dates. -/
lemma assembleRows_bucket_row {core general : List (Option Value)} {buckets : Buckets}
    {rows : List Row} (hc : core.length = 5) (hg : general.length = 5)
    (h : assembleRows core general buckets = .ok rows)
    {k : Option String × Option String} {m : SlotMap}
    (hfind : bucketFind? buckets k = some m) :
    ∃ ds de r, r ∈ rows ∧ isoOrError k.1 = .ok ds ∧ isoOrError k.2 = .ok de ∧
      rowPeriodKey r = some (ds, de) := by
  have hcg : (core ++ general).length = 10 := by
    rw [List.length_append, hc, hg]
  unfold assembleRows at h
  cases hm : buckets.mapM periodOf with
  | error err => rw [hm, except_bind_error] at h; cases h
  | ok periods =>
      rw [hm, except_bind_ok] at h
      simp only at h
      have hkm : (k, m) ∈ buckets := bucketFind?_mem hfind
      rcases mapM_ok_mem buckets periods hm (k, m) hkm with ⟨pt, hpt, hpo⟩
      rcases periodOf_ok hpo with ⟨ds, de, hs1, hs2, hpteq⟩
      have hpts : pt ∈ pySorted descOrder periods := (mem_pySorted periods pt).mpr hpt
      cases hs : pySorted descOrder periods with
      | nil =>
          rw [hs] at hpts
          cases hpts
      | cons q qs =>
          rw [hs] at h hpts
          have hrows : rows = (q :: qs).map (fun p =>
              core ++ general ++ ([some (.date p.1.1), some (.date p.1.2)] ++ p.2)) :=
            (Except.ok.inj h).symm
          refine ⟨ds, de,
            core ++ general ++ ([some (.date pt.1.1), some (.date pt.1.2)] ++ pt.2), ?_, hs1,
            hs2, ?_⟩
          · rw [hrows]
            exact List.mem_map.mpr ⟨pt, hpts, rfl⟩
          · rw [rowPeriodKey_of_prefix10 _ hcg]
            rw [hpteq]
            rfl

/-! ## C10 -/

/-- C10: whenever an element matches a periodic candidate (nonempty search
result) and its context reference resolves in the context index, the mere
bucket lookup during matching materializes the period: a successful
extraction contains a row keyed by the parsed dates of that context, whether
or not any candidate for the period ever parsed to a non-null value. -/
theorem C10_bucket_materialization :
    ∀ (name : String) (doc : XmlDoc) (rows : List Row) (ctx : ContextDict) (e : XmlNode)
      (ce : CandEntry) (dkey : Option String × Option String),
      _xbrl_to_rows name doc = .ok rows →
      buildContextDates doc.root = .ok ctx →
      e ∈ allElements doc.root →
      ce ∈ candidatesFor (localNameOf e) (nameSuffixOf e) →
      ¬ ce.col ∈ generalKeys →
      contextRefOf e ≠ "" →
      ctxDictGet? ctx (contextRefOf e) = some dkey →
      ce.test.search e (localNameOf e) (nameSuffixOf e) (contextRefOf e) ≠ [] →
      ∃ ds de r, r ∈ rows ∧ isoOrError dkey.1 = .ok ds ∧ isoOrError dkey.2 = .ok de ∧
        rowPeriodKey r = some (ds, de) := by
  intro name doc rows ctx e ce dkey h hbc he hce hcol hcr hctx hsearch
  rcases xbrl_ok_destruct h with ⟨ctx0, g, d, st, hbc0, _, _, hrun, hasm⟩
  have hctxeq : ctx0 = ctx := by
    rw [hbc] at hbc0
    exact (Except.ok.inj hbc0).symm
  rw [hctxeq] at hrun
  have hsome := runTraversal_materializes hrun he hce hcol hcr hctx hsearch
  cases hfind : bucketFind? st.buckets dkey with
  | none => rw [hfind] at hsome; cases hsome
  | some m =>
      have hg5 : (generalKeys.map (fun k => (slotGet st.general k).2)).length = 5 := by
        rw [List.length_map]
        rfl
      exact assembleRows_bucket_row (by rfl) hg5 hasm hfind

/-- The fact element of the C10 witness document: its text is a single dash,
so the parse gate returns null and no value is ever stored. -/
def eFA10 : XmlNode :=
  ⟨"FixedAssets", [("contextRef", "c1")], some "-", []⟩

/-- A document with one instant context and one FixedAssets fact whose text
parses to null. -/
def docGateNull : XmlDoc :=
  ⟨⟨"xbrl", [], none,
    [ ⟨"context", [("id", "c1")], none,
        [⟨"period", [], none, [⟨"instant", [], some "2022-12-31", []⟩]⟩]⟩,
      eFA10 ]⟩, []⟩

def ctx10 : ContextDict :=
  [(some "c1", (some "2022-12-31", some "2022-12-31"))]

def dkey10 : Option String × Option String :=
  (some "2022-12-31", some "2022-12-31")

/-- The single row extracted from `docGateNull`: the period appears even
though all 25 periodic cells are null. -/
def rows10 : List Row :=
  [[some (.str "Prod1_1"), some (.str "X"), some (.date ⟨2022, 1, 1⟩), some (.str "xml"),
    some (.str "")] ++ List.replicate 5 none ++
    ([some (.date ⟨2022, 12, 31⟩), some (.date ⟨2022, 12, 31⟩)] ++ List.replicate 25 none)]

set_option maxRecDepth 10000 in
/-- C10 witness: the all-null periodic fact still produces its period row. -/
theorem C10_bucket_materialization_witness :
    _xbrl_to_rows "Prod1_1_X_20220101.xml" docGateNull = .ok rows10 ∧
    buildContextDates docGateNull.root = .ok ctx10 ∧
    eFA10 ∈ allElements docGateNull.root ∧
    ceFA ∈ candidatesFor (localNameOf eFA10) (nameSuffixOf eFA10) ∧
    ¬ ceFA.col ∈ generalKeys ∧
    contextRefOf eFA10 ≠ "" ∧
    ctxDictGet? ctx10 (contextRefOf eFA10) = some dkey10 ∧
    ceFA.test.search eFA10 (localNameOf eFA10) (nameSuffixOf eFA10) (contextRefOf eFA10) ≠ [] ∧
    (∃ ds de r, r ∈ rows10 ∧ isoOrError dkey10.1 = .ok ds ∧ isoOrError dkey10.2 = .ok de ∧
      rowPeriodKey r = some (ds, de)) := by
  have h1 : _xbrl_to_rows "Prod1_1_X_20220101.xml" docGateNull = .ok rows10 := by rfl
  have h2 : buildContextDates docGateNull.root = .ok ctx10 := by rfl
  have hall : allElements docGateNull.root =
      [docGateNull.root,
        ⟨"context", [("id", "c1")], none,
          [⟨"period", [], none, [⟨"instant", [], some "2022-12-31", []⟩]⟩]⟩,
        ⟨"period", [], none, [⟨"instant", [], some "2022-12-31", []⟩]⟩,
        ⟨"instant", [], some "2022-12-31", []⟩, eFA10] := by rfl
  have h3 : eFA10 ∈ allElements docGateNull.root := by
    rw [hall]
    exact List.mem_cons_of_mem _ (List.mem_cons_of_mem _ (List.mem_cons_of_mem _
      (List.mem_cons_of_mem _ (List.mem_cons_self _ _))))
  have hcand : candidatesFor (localNameOf eFA10) (nameSuffixOf eFA10) =
      ceFA :: CUSTOM_TESTS := by rfl
  have h4 : ceFA ∈ candidatesFor (localNameOf eFA10) (nameSuffixOf eFA10) := by
    rw [hcand]
    exact List.mem_cons_self _ _
  have h5 : ¬ ceFA.col ∈ generalKeys := by decide
  have h6 : contextRefOf eFA10 ≠ "" := by decide
  have h7 : ctxDictGet? ctx10 (contextRefOf eFA10) = some dkey10 := by rfl
  have h8 : ceFA.test.search eFA10 (localNameOf eFA10) (nameSuffixOf eFA10)
      (contextRefOf eFA10) ≠ [] := by
    show ([eFA10] : List XmlNode) ≠ []
    simp
  refine ⟨h1, h2, h3, h4, h5, h6, h7, h8, ?_⟩
  exact C10_bucket_materialization "Prod1_1_X_20220101.xml" docGateNull rows10 ctx10 eFA10
    ceFA dkey10 h1 h2 h3 h4 h5 h6 h7 h8

/-! ## C4 amended -/

/-- The lowest-priority candidate of entity_current_legal_name as the catalog
builds it. -/
def entitySpanEntry : CandEntry :=
  ⟨"entity_current_legal_name", 2, ⟨.custom, none, firstSpanChildSearch⟩, _parse_str⟩

set_option maxRecDepth 10000 in
/-- C4 amended: the lowest-priority candidate of entity_current_legal_name is
the first custom test, runs against every element of the document, and takes
the text of the first span child of WHATEVER element is under test: the rule
is not restricted to EntityCurrentLegalOrRegisteredName elements. -/
theorem C4_span_fallback_amended :
    CUSTOM_TESTS.head? = some entitySpanEntry ∧
    (∀ ln av : String, entitySpanEntry ∈ candidatesFor ln av) ∧
    (∀ (e : XmlNode) (ln av cr : String),
        entitySpanEntry.test.search e ln av cr = (childrenNamed e "span").take 1) ∧
    (∀ (g : SlotMap) (e : XmlNode) (ln av cr : String) (sp : XmlNode) (w : Value),
        (childrenNamed e "span").take 1 = [sp] →
        _parse sp sp.text _parse_str = .ok (some w) →
        2 ≤ (slotGet g "entity_current_legal_name").1 →
        handle_general g e ln av cr entitySpanEntry =
          .ok (slotSet g "entity_current_legal_name" (2, some w))) := by
  have hhead : CUSTOM_TESTS.head? = some entitySpanEntry := by rfl
  refine ⟨hhead, ?_, fun e ln av cr => rfl, ?_⟩
  · intro ln av
    have hmem : entitySpanEntry ∈ CUSTOM_TESTS := by
      cases hh : CUSTOM_TESTS with
      | nil => rw [hh] at hhead; cases hhead
      | cons a t =>
          rw [hh] at hhead
          have : a = entitySpanEntry := Option.some.inj hhead
          rw [← this]
          exact List.mem_cons_self a t
    exact List.mem_append_right _ hmem
  · intro g e ln av cr sp w hsp hparse hbest
    unfold handle_general
    rw [if_neg (by exact Nat.not_lt.mpr hbest)]
    show handleGeneralLoop _parse_str "entity_current_legal_name" 2 g
      ((childrenNamed e "span").take 1) = _
    rw [hsp]
    simp only [handleGeneralLoop, hparse, except_bind_ok]

def spanC4 : XmlNode :=
  ⟨"span", [], some "SOME NAME", []⟩

def divC4 : XmlNode :=
  ⟨"div", [], none, [spanC4]⟩

set_option maxRecDepth 4000 in
/-- C4 amended witness: a plain div with a span child sets the entity name
slot through the fallback rule. -/
theorem C4_span_fallback_amended_witness :
    (childrenNamed divC4 "span").take 1 = [spanC4] ∧
    _parse spanC4 spanC4.text _parse_str = .ok (some (.str "SOME NAME")) ∧
    2 ≤ (slotGet (initSlots generalKeys) "entity_current_legal_name").1 ∧
    handle_general (initSlots generalKeys) divC4 "div" "" "" entitySpanEntry =
      .ok (slotSet (initSlots generalKeys) "entity_current_legal_name"
        (2, some (.str "SOME NAME"))) := by
  refine ⟨rfl, rfl, by decide, ?_⟩
  exact C4_span_fallback_amended.2.2.2 (initSlots generalKeys) divC4 "div" "" "" spanC4
    (.str "SOME NAME") rfl rfl (by decide)

/-! ## C5 amended lemmas -/

lemma option_bind_some {α β : Type} (a : α) (f : α → Option β) :
    (some a >>= f) = f a := rfl

lemma isPrefixOf_append {p l e : List Char} (h : p.isPrefixOf l = true) :
    p.isPrefixOf (l ++ e) = true := by
  rw [List.isPrefixOf_iff_prefix] at h ⊢
  exact h.trans (List.prefix_append l e)

lemma pChar_shape {c : Char} {l r : List Char} (h : pChar c l = some r) : l = c :: r := by
  cases l with
  | nil => cases h
  | cons x t =>
      simp only [pChar] at h
      by_cases hx : x = c
      · rw [if_pos hx] at h
        rw [hx, Option.some.inj h]
      · rw [if_neg hx] at h
        cases h

lemma pChar_append {c : Char} {l r : List Char} (e : List Char) (h : pChar c l = some r) :
    pChar c (l ++ e) = some (r ++ e) := by
  rw [pChar_shape h]
  show (if c = c then some (r ++ e) else none) = some (r ++ e)
  rw [if_pos rfl]

lemma span_append_of_rest_cons {pred : Char → Bool} {l d r : List Char} {c : Char}
    (h : l.span pred = (d, c :: r)) (e : List Char) :
    (l ++ e).span pred = (d, c :: (r ++ e)) := by
  rw [List.span_eq_take_drop] at h
  have h1 : l.takeWhile pred = d := congrArg Prod.fst h
  have h2 : l.dropWhile pred = c :: r := congrArg Prod.snd h
  have hlen : (l.takeWhile pred).length + (c :: r).length = l.length := by
    rw [← h2, ← List.length_append, List.takeWhile_append_dropWhile]
  have hcond : ¬ (l.takeWhile pred).length = l.length := by
    simp only [List.length_cons] at hlen
    omega
  have hcond2 : (l.dropWhile pred).isEmpty = false := by
    rw [h2]
    rfl
  have ht : (l ++ e).takeWhile pred = d := by
    rw [List.takeWhile_append, if_neg hcond, h1]
  have hd : (l ++ e).dropWhile pred = c :: (r ++ e) := by
    rw [List.dropWhile_append, hcond2]
    rw [if_neg (by simp)]
    rw [h2]
    rfl
  rw [List.span_eq_take_drop, ht, hd]

lemma pSpan1_append {pred : Char → Bool} {l d r : List Char} {c : Char} (e : List Char)
    (h : pSpan1 pred l = some (d, c :: r)) :
    pSpan1 pred (l ++ e) = some (d, c :: (r ++ e)) := by
  unfold pSpan1 at h ⊢
  rcases hsp : l.span pred with ⟨d0, r0⟩
  rw [hsp] at h
  cases d0 with
  | nil => cases h
  | cons a t =>
      have hinj := Option.some.inj h
      have hdeq : a :: t = d := congrArg Prod.fst hinj
      have hreq : r0 = c :: r := congrArg Prod.snd hinj
      have hsp2 : l.span pred = (a :: t, c :: r) := by rw [hsp, hreq]
      rw [span_append_of_rest_cons hsp2 e, ← hdeq]

lemma pDate8_append {l date r : List Char} (e : List Char) (h : pDate8 l = some (date, r)) :
    pDate8 (l ++ e) = some (date, r ++ e) := by
  unfold pDate8 at h ⊢
  by_cases hcond : ((l.take 8).length = 8 && (l.take 8).all isAsciiDigit) = true
  · rw [if_pos hcond] at h
    have hinj := Option.some.inj h
    have hdate : l.take 8 = date := congrArg Prod.fst hinj
    have hr : l.drop 8 = r := congrArg Prod.snd hinj
    have h8 : (l.take 8).length = 8 :=
      of_decide_eq_true ((Bool.and_eq_true _ _).mp hcond).1
    have hlen : 8 ≤ l.length := by
      rw [List.length_take] at h8
      omega
    have htake : (l ++ e).take 8 = l.take 8 := List.take_append_of_le_length hlen
    have hdrop : (l ++ e).drop 8 = l.drop 8 ++ e := List.drop_append_of_le_length hlen
    rw [htake, if_pos hcond, hdrop, hdate, hr]
  · rw [if_neg hcond] at h
    cases h

lemma pExt_append {r : List Char} {ext : String} (e : List Char) (h : pExt r = some ext) :
    pExt (r ++ e) = some ext := by
  unfold pExt at h ⊢
  by_cases hh : ['h', 't', 'm', 'l'].isPrefixOf r = true
  · rw [if_pos hh] at h
    rw [if_pos (isPrefixOf_append hh)]
    exact h
  · rw [if_neg hh] at h
    by_cases hx : ['x', 'm', 'l'].isPrefixOf r = true
    · rw [if_pos hx] at h
      rcases List.isPrefixOf_iff_prefix.mp hx with ⟨t, ht⟩
      rw [← ht]
      rw [show ['h', 't', 'm', 'l'].isPrefixOf ((['x', 'm', 'l'] ++ t) ++ e) = false from rfl]
      rw [if_neg (by simp)]
      rw [if_pos (isPrefixOf_append (ht ▸ hx))]
      exact h
    · rw [if_neg hx] at h
      cases h

/-- A successful filename match is oblivious to anything appended after the
matched prefix: the source pattern has no end anchor. -/
lemma matchFilenameList_append {l : List Char} {g : String × String × String × String}
    (e : List Char) (h : matchFilenameList l = some g) :
    matchFilenameList (l ++ e) = some g := by
  unfold matchFilenameList at h ⊢
  by_cases hpre : ['P', 'r', 'o', 'd'].isPrefixOf l = true
  · rw [if_pos hpre] at h
    simp only [option_bind_some] at h
    rw [if_pos (isPrefixOf_append hpre)]
    simp only [option_bind_some]
    have hlen4 : 4 ≤ l.length := by
      have hle := (List.isPrefixOf_iff_prefix.mp hpre).length_le
      simpa using hle
    rw [List.drop_append_of_le_length hlen4]
    cases hs1 : pSpan1 isAsciiDigit (l.drop 4) with
    | none => rw [hs1] at h; cases h
    | some pr1 =>
        obtain ⟨d1, r1⟩ := pr1
        rw [hs1] at h
        simp only [option_bind_some] at h
        cases hc1 : pChar '_' r1 with
        | none => rw [hc1] at h; cases h
        | some r2 =>
            rw [hc1] at h
            simp only [option_bind_some] at h
            have hs1' : pSpan1 isAsciiDigit (l.drop 4) = some (d1, '_' :: r2) := by
              rw [hs1, pChar_shape hc1]
            rw [pSpan1_append e hs1']
            simp only [option_bind_some]
            rw [show pChar '_' ('_' :: (r2 ++ e)) = some (r2 ++ e) from rfl]
            simp only [option_bind_some]
            cases hs2 : pSpan1 isAsciiDigit r2 with
            | none => rw [hs2] at h; cases h
            | some pr2 =>
                obtain ⟨d2, r3⟩ := pr2
                rw [hs2] at h
                simp only [option_bind_some] at h
                cases hc2 : pChar '_' r3 with
                | none => rw [hc2] at h; cases h
                | some r4 =>
                    rw [hc2] at h
                    simp only [option_bind_some] at h
                    have hs2' : pSpan1 isAsciiDigit r2 = some (d2, '_' :: r4) := by
                      rw [hs2, pChar_shape hc2]
                    rw [pSpan1_append e hs2']
                    simp only [option_bind_some]
                    rw [show pChar '_' ('_' :: (r4 ++ e)) = some (r4 ++ e) from rfl]
                    simp only [option_bind_some]
                    cases hs3 : pSpan1 (fun c => c ≠ '_') r4 with
                    | none => rw [hs3] at h; cases h
                    | some pr3 =>
                        obtain ⟨comp, r5⟩ := pr3
                        rw [hs3] at h
                        simp only [option_bind_some] at h
                        cases hc3 : pChar '_' r5 with
                        | none => rw [hc3] at h; cases h
                        | some r6 =>
                            rw [hc3] at h
                            simp only [option_bind_some] at h
                            have hs3' : pSpan1 (fun c => c ≠ '_') r4 =
                                some (comp, '_' :: r6) := by
                              rw [hs3, pChar_shape hc3]
                            rw [pSpan1_append e hs3']
                            simp only [option_bind_some]
                            rw [show pChar '_' ('_' :: (r6 ++ e)) = some (r6 ++ e) from rfl]
                            simp only [option_bind_some]
                            cases hd8 : pDate8 r6 with
                            | none => rw [hd8] at h; cases h
                            | some prd =>
                                obtain ⟨date, r7⟩ := prd
                                rw [hd8] at h
                                simp only [option_bind_some] at h
                                rw [pDate8_append e hd8]
                                simp only [option_bind_some]
                                cases hc4 : pChar '.' r7 with
                                | none => rw [hc4] at h; cases h
                                | some r8 =>
                                    rw [hc4] at h
                                    simp only [option_bind_some] at h
                                    rw [pChar_append e hc4]
                                    simp only [option_bind_some]
                                    cases hpx : pExt r8 with
                                    | none => rw [hpx] at h; cases h
                                    | some ext =>
                                        rw [hpx] at h
                                        simp only [option_bind_some] at h
                                        rw [pExt_append e hpx]
                                        simp only [option_bind_some]
                                        exact h
  · rw [if_neg hpre] at h
    cases h

lemma toList_append (s t : String) : (s ++ t).toList = s.toList ++ t.toList :=
  rfl

/-- C5 amended: the basename is matched by the source pattern, which has no
end anchor: a basename failing the pattern makes extraction fail with no rows
(first conjunct), while appending any characters to a matching basename, such
as extra characters after the html or xml extension, leaves the match and its
four groups unchanged (second conjunct). -/
theorem C5_filename_pattern_amended :
    (∀ (name : String) (doc : XmlDoc),
        matchFilename? (pyBasename name) = none → (_xbrl_to_rows name doc).isOk = false) ∧
    (∀ (fn : String) (g : String × String × String × String) (extra : String),
        matchFilename? fn = some g → matchFilename? (fn ++ extra) = some g) := by
  constructor
  · intro name doc h
    unfold _xbrl_to_rows
    cases hctx : buildContextDates doc.root with
    | error e =>
        rw [except_bind_error]
        rfl
    | ok ctx =>
        rw [except_bind_ok]
        simp only [h, except_bind_error]
        rfl
  · intro fn g extra h
    unfold matchFilename? at h ⊢
    rw [toList_append]
    exact matchFilenameList_append extra.toList h

/-- C5 amended witness: a basename that fails the pattern yields no rows, and
appending trailing characters to a matching basename preserves the match. -/
theorem C5_filename_pattern_amended_witness :
    (matchFilename? (pyBasename "badname.txt") = none ∧
      (_xbrl_to_rows "badname.txt" docPlain).isOk = false) ∧
    (matchFilename? "Prod1_1_A_20220101.xml" = some ("Prod1_1", "A", "20220101", "xml") ∧
      matchFilename? ("Prod1_1_A_20220101.xml" ++ "X") =
        some ("Prod1_1", "A", "20220101", "xml")) := by
  constructor
  · exact ⟨by rfl, C5_filename_pattern_amended.1 "badname.txt" docPlain (by rfl)⟩
  · exact ⟨by rfl, C5_filename_pattern_amended.2 "Prod1_1_A_20220101.xml"
      ("Prod1_1", "A", "20220101", "xml") "X" (by rfl)⟩

/-! ## C8: exact decimal parsing -/

